import Mathlib

/-!
Verification of the cellxgene `AppConfig` configuration subsystem
(`server/common/config/app_config.py`).

The embedding is shallow: Python dicts become association lists, nested
YAML mappings become the rose tree `Nested`, and attribute names (Python
strings joined with a double underscore) are represented by their path
segments (`List String`), which the double-underscore join/split maps to
bijectively for the identifier-shaped keys the configuration uses.
Exceptions become an `Err` value returned next to the post-call state, so
a call that raises mid-way still exposes its partial mutations, exactly as
Python in-place mutation does.

`ServerConfig`/`DatasetConfig` internals and the flatten/unflatten
utilities are not part of the source under verification; those definitions
are modelled from the specification and say so in their doc comments.
-/

/-- A scalar configuration value as it appears in the YAML files: string,
integer, boolean, null, or a string-to-string mapping (the only dict-valued
attribute the code inspects is the server dataroot mapping). -/
inductive Value where
  | vstr (s : String)
  | vint (i : Int)
  | vbool (b : Bool)
  | vnone
  | vdict (m : List (String × String))
deriving DecidableEq, Repr

/-- Python truthiness of a configuration value. -/
def Value.truthy : Value → Bool
  | .vstr s => !s.isEmpty
  | .vint i => i != 0
  | .vbool b => b
  | .vnone => false
  | .vdict m => !m.isEmpty

/-- First-match association-list lookup, the model of Python dict lookup
and of attribute lookup on a config object. -/
def lookupA {κ α : Type} [DecidableEq κ] : List (κ × α) → κ → Option α
  | [], _ => none
  | (k, v) :: rest, a => if k = a then some v else lookupA rest a

/-- Python dict assignment: replace the entry in place when the key is
present, append at the end otherwise. -/
def setA {κ α : Type} [DecidableEq κ] : List (κ × α) → κ → α → List (κ × α)
  | [], a, b => [(a, b)]
  | (k, v) :: rest, a, b => if k = a then (a, b) :: rest else (k, v) :: setA rest a b

/-- The keys of an association list, in order. -/
def keysOf {κ α : Type} (l : List (κ × α)) : List κ := l.map Prod.fst

/-- A parsed nested YAML mapping: either a scalar or a mapping from keys to
nested mappings. -/
inductive Nested where
  | leaf (v : Value)
  | node (cs : List (String × Nested))

/-- Python truthiness of a parsed YAML object: a mapping is truthy iff
nonempty, a scalar by its own truthiness. -/
def Nested.truthy : Nested → Bool
  | .leaf v => v.truthy
  | .node cs => !cs.isEmpty

/-- The children of a mapping (empty for a scalar). -/
def Nested.childrenOf : Nested → List (String × Nested)
  | .leaf _ => []
  | .node cs => cs

/-- Child lookup on a mapping. -/
def Nested.getChild (t : Nested) (a : String) : Option Nested :=
  lookupA t.childrenOf a

mutual

/-- Modelled from the spec: the external flatten utility. Flattens a nested
mapping to (key-path, value) pairs; values are treated as atomic. -/
def flattenN : Nested → List (List String × Value)
  | .leaf v => [([], v)]
  | .node cs => flattenC cs

/-- Flattening of a children list, prefixing each child's paths with its key. -/
def flattenC : List (String × Nested) → List (List String × Value)
  | [] => []
  | (k, t) :: rest => (flattenN t).map (fun pv => (k :: pv.1, pv.2)) ++ flattenC rest

end

/-- Path lookup in a nested mapping: descend along the keys and return the
scalar found at the end of the path, if any. -/
def Nested.lookupPath : Nested → List String → Option Value
  | .leaf v, [] => some v
  | .node _, [] => none
  | .leaf _, _ :: _ => none
  | .node cs, k :: ks =>
    match lookupA cs k with
    | some t => t.lookupPath ks
    | none => none

/-- Replace every child with the given key by the given subtree. -/
def replaceC : List (String × Nested) → String → Nested → List (String × Nested)
  | [], _, _ => []
  | (a, t) :: rest, k, x =>
    if a = k then (k, x) :: replaceC rest k x else (a, t) :: replaceC rest k x

/-- Modelled from the spec: one step of the external unflatten utility.
Performs the nested dict assignment `d[k1][k2]...[kn] = v`, creating
intermediate mappings as needed. -/
def insertPath : Nested → List String → Value → Nested
  | _, [], v => .leaf v
  | .leaf _, k :: ks, v => .node [(k, insertPath (.node []) ks v)]
  | .node cs, k :: ks, v =>
    match lookupA cs k with
    | some t => .node (replaceC cs k (insertPath t ks v))
    | none => .node (cs ++ [(k, insertPath (.node []) ks v)])

/-- Modelled from the spec: the external unflatten utility, folding the
flat (key-path, value) pairs into a nested mapping built on an initial tree. -/
def unflattenInto (t : Nested) (kvs : List (List String × Value)) : Nested :=
  kvs.foldl (fun t kv => insertPath t kv.1 kv.2) t

mutual

/-- Well-formedness of a nested mapping: every mapping in the tree has
pairwise distinct keys.  Every mapping parsed from a YAML document has
this shape. -/
def wfN : Nested → Bool
  | .leaf _ => true
  | .node cs => wfC cs

/-- Well-formedness of a children list. -/
def wfC : List (String × Nested) → Bool
  | [] => true
  | (k, t) :: rest => !(keysOf rest).contains k && wfN t && wfC rest

end

/-- The errors the modelled code can raise.  All constructors except
`keyError`, `attributeError` and `typeError` model `ConfigurationError`;
those three model Python's built-in lookup/attribute/call errors. -/
inductive Err where
  | notCompleted
  | checkFailed
  | completeFailed
  | duplicateDataroot (tag : String)
  | datarootNotDict
  | tagNotInDataroot (tag : String)
  | unknownKey (k : List String)
  | keyError (k : String)
  | attributeError
  | typeError
deriving DecidableEq, Repr

/-- Whether an error models a `ConfigurationError` (as opposed to a Python
built-in error such as `KeyError`). -/
def Err.isConfigurationError : Err → Bool
  | .keyError _ => false
  | .attributeError => false
  | .typeError => false
  | _ => true

/-- Whether an error is one of the three precondition errors of
`add_dataroot_config`: duplicate tag, non-dict dataroot mapping, or tag
absent from the mapping. -/
def Err.isDatarootPrecondition : Err → Bool
  | .duplicateDataroot _ => true
  | .datarootNotDict => true
  | .tagNotInDataroot _ => true
  | _ => false

/-- The context object threaded through the completion pass: a dict holding
the diagnostic-message sink. -/
structure Context where
  messagefn : String → Unit

/-- The no-op message sink installed when `complete_config` is given none. -/
def noopMsg : String → Unit := fun _ => ()

example : flattenN (.node [("a", .leaf .vnone), ("b", .node [("c", .leaf (.vint 3))])]) =
    [(["a"], .vnone), (["b", "c"], .vint 3)] := rfl

example : Nested.lookupPath
    (unflattenInto (.node [("s", .node [])])
      [(["s", "a", "b"], .vint 1), (["s", "c"], .vbool true)]) ["s", "a", "b"] =
    some (.vint 1) := rfl

/-- Modelled from the spec: the shared shape of `ServerConfig` and
`DatasetConfig` (their source is not part of the verified tree).  Each
wraps a flat set of named attributes derived from a nested default-config
section, retains that section for diffing and mapping reconstruction,
and carries the dataroot tag it overrides (none for the server config and
the default dataset config).  The outcomes of its attribute validation and
of its completion pass are abstracted into the two boolean verdicts. -/
structure BaseConfig where
  tag : Option String
  default_config : Nested
  attrs : List (List String × Value)
  checkOk : Bool
  completeOk : Bool

/-- Modelled from the spec: constructing a `ServerConfig` from its
default-config section derives the flat attribute set from that section. -/
def ServerConfig.init (sec : Nested) (checkOk completeOk : Bool) : BaseConfig :=
  { tag := none, default_config := sec, attrs := flattenN sec,
    checkOk := checkOk, completeOk := completeOk }

/-- Modelled from the spec: constructing a `DatasetConfig` from a dataroot
tag and its default-config section. -/
def DatasetConfig.init (tag : Option String) (sec : Nested) (checkOk completeOk : Bool) :
    BaseConfig :=
  { tag := tag, default_config := sec, attrs := flattenN sec,
    checkOk := checkOk, completeOk := completeOk }

/-- Attribute read with a null default; reachable configurations always
hold every attribute their schema declares, so the default is never
observed in the verified scenarios. -/
def BaseConfig.getAttrD (b : BaseConfig) (p : List String) : Value :=
  (lookupA b.attrs p).getD .vnone

/-- Modelled from the spec: `update(**kw)` applies a flat set of named
values in order, raising `ConfigurationError` on the first unknown name;
values set before the failure stay applied. -/
def BaseConfig.update : BaseConfig → List (List String × Value) → Option Err × BaseConfig
  | b, [] => (none, b)
  | b, (k, v) :: rest =>
    if (lookupA b.attrs k).isSome then
      BaseConfig.update { b with attrs := setA b.attrs k v } rest
    else
      (some (.unknownKey k), b)

/-- Modelled from the spec: `update_from_config(nested, label)` applies a
nested mapping with the same validation as `update`; the label is only
used in error messages and has no semantic effect. -/
def BaseConfig.update_from_config (b : BaseConfig) (cfg : Nested) (_label : String) :
    Option Err × BaseConfig :=
  b.update (flattenN cfg)

/-- Modelled from the spec: `create_mapping(config)` maps each attribute
name found by flattening the given nested config to the pair of its
location in the config tree and the value found there. -/
def BaseConfig.create_mapping (_b : BaseConfig) (cfg : Nested) :
    List (List String × (List String × Value)) :=
  (flattenN cfg).map (fun pv => (pv.1, (pv.1, pv.2)))

/-- Modelled from the spec: `check_config()` fails with
`ConfigurationError` iff some attribute fails its type/range validation;
the verdict is the abstracted `checkOk` field. -/
def BaseConfig.check_config (b : BaseConfig) : Option Err :=
  if b.checkOk then none else some .checkFailed

/-- Modelled from the spec: `complete_config(context)` performs cross-field
derivation and validation, writing diagnostics through the context's
message sink; the verdict is the abstracted `completeOk` field. -/
def BaseConfig.complete_config (b : BaseConfig) (_context : Context) : Option Err :=
  if b.completeOk then none else some .completeFailed

/-- The application configuration: the loaded default config, one server
config, one default dataset config, the per-dataroot overrides, and the
completion flag.  The `is_complete` field models the distinct attribute of
that name that three update methods assign (`None` until first assigned,
mirroring Python's dynamic attribute creation). -/
structure AppConfig where
  default_config : List (String × Nested)
  server_config : BaseConfig
  default_dataset_config : BaseConfig
  dataroot_config : List (String × BaseConfig)
  is_completed : Bool
  is_complete : Option Bool

/-- `AppConfig.__init__`: build the server config and the default dataset
config from the `server` and `dataset` sections of the default config
(modelled as a parameter rather than a file read), with no dataroot
overrides and completion state false.  The four booleans are the
abstracted validation/completion verdicts of the two nested configs. -/
def mkAppConfig (dc : List (String × Nested)) (sOk sCo dOk dCo : Bool) : AppConfig :=
  { default_config := dc
    server_config := ServerConfig.init ((lookupA dc "server").getD (.node [])) sOk sCo
    default_dataset_config :=
      DatasetConfig.init none ((lookupA dc "dataset").getD (.node [])) dOk dCo
    dataroot_config := []
    is_completed := false
    is_complete := none }

/-- `AppConfig.get_dataset_config`: the default dataset config in
single-dataset mode (truthy `single_dataset__datapath`), otherwise the
dataroot-specific config when present, else the default. -/
def AppConfig.get_dataset_config (c : AppConfig) (dataroot_key : String) : BaseConfig :=
  if (c.server_config.getAttrD ["single_dataset", "datapath"]).truthy then
    c.default_dataset_config
  else
    (lookupA c.dataroot_config dataroot_key).getD c.default_dataset_config

/-- First failing check among the dataroot configs, in order. -/
def checkDataroots : List (String × BaseConfig) → Option Err
  | [] => none
  | (_, d) :: rest =>
    match d.check_config with
    | some e => some e
    | none => checkDataroots rest

/-- `AppConfig.check_config`: raise if the configuration has not been
completed, then check the server config, the default dataset config, and
every dataroot config in turn. -/
def AppConfig.check_config (c : AppConfig) : Option Err :=
  if !c.is_completed then some .notCompleted
  else
    match c.server_config.check_config with
    | some e => some e
    | none =>
      match c.default_dataset_config.check_config with
      | some e => some e
      | none => checkDataroots c.dataroot_config

/-- `AppConfig.update_server_config`: update the server config, then
assign the (mistyped) `is_complete` attribute rather than `is_completed`. -/
def AppConfig.update_server_config (c : AppConfig) (kw : List (List String × Value)) :
    Option Err × AppConfig :=
  match c.server_config.update kw with
  | (some e, s2) => (some e, { c with server_config := s2 })
  | (none, s2) => (none, { c with server_config := s2, is_complete := some false })

/-- Update every dataroot config in order with the same named options,
stopping at the first failure (later configs stay untouched). -/
def updateDataroots : List (String × BaseConfig) → List (List String × Value) →
    Option Err × List (String × BaseConfig)
  | [], _ => (none, [])
  | (t, d) :: rest, kw =>
    match d.update kw with
    | (some e, d2) => (some e, (t, d2) :: rest)
    | (none, d2) =>
      match updateDataroots rest kw with
      | (e, rest2) => (e, (t, d2) :: rest2)

/-- `AppConfig.update_default_dataset_config`: update the default dataset
config and re-apply the same options to every dataroot config, then assign
the (mistyped) `is_complete` attribute rather than `is_completed`. -/
def AppConfig.update_default_dataset_config (c : AppConfig)
    (kw : List (List String × Value)) : Option Err × AppConfig :=
  match c.default_dataset_config.update kw with
  | (some e, d2) => (some e, { c with default_dataset_config := d2 })
  | (none, d2) =>
    match updateDataroots c.dataroot_config kw with
    | (some e, l2) =>
      (some e, { c with default_dataset_config := d2, dataroot_config := l2 })
    | (none, l2) =>
      (none, { c with default_dataset_config := d2, dataroot_config := l2, is_complete := some false })

/-- `AppConfig.add_dataroot_config`: after the three precondition checks,
clear the completion flag, create a fresh `DatasetConfig` from the default
config's `dataset` section, re-apply the values `create_mapping` reads off
the default dataset config's stored default section, and finally apply the
keyword overrides.  The new config inherits the abstracted validation
verdicts of the default dataset config. -/
def AppConfig.add_dataroot_config (c : AppConfig) (dataroot_tag : String)
    (kw : List (String × Nested)) : Option Err × AppConfig :=
  if (lookupA c.dataroot_config dataroot_tag).isSome then
    (some (.duplicateDataroot dataroot_tag), c)
  else
    match lookupA c.server_config.attrs ["multi_dataset", "dataroot"] with
    | none => (some .attributeError, c)
    | some v =>
      match v with
      | .vdict m =>
        if (lookupA m dataroot_tag).isSome then
          let c1 := { c with is_completed := false }
          match lookupA c1.default_config "dataset" with
          | none => (some (.keyError "dataset"), c1)
          | some ds =>
            let newCfg := DatasetConfig.init (some dataroot_tag) ds
              c.default_dataset_config.checkOk c.default_dataset_config.completeOk
            let flat_config := c.default_dataset_config.create_mapping
              c.default_dataset_config.default_config
            let config := flat_config.map (fun kv => (kv.1, kv.2.2))
            match newCfg.update config with
            | (some e, n2) =>
              (some e, { c1 with dataroot_config := setA c1.dataroot_config dataroot_tag n2 })
            | (none, n2) =>
              match n2.update_from_config (.node kw) dataroot_tag with
              | (some e, n3) =>
                (some e, { c1 with dataroot_config := setA c1.dataroot_config dataroot_tag n3 })
              | (none, n3) =>
                (none, { c1 with dataroot_config := setA c1.dataroot_config dataroot_tag n3 })
        else (some (.tagNotInDataroot dataroot_tag), c)
      | _ => (some .datarootNotDict, c)

/-- The `server` section step of `update_from_config_file`: when the parsed
config has a truthy `server` entry, apply it to the server config. -/
def serverStep (c : AppConfig) (config : List (String × Nested)) : Option Err × AppConfig :=
  match lookupA config "server" with
  | some s =>
    if s.truthy then
      match c.server_config.update_from_config s "server" with
      | (some e, s2) => (some e, { c with server_config := s2 })
      | (none, s2) => (none, { c with server_config := s2 })
    else (none, c)
  | none => (none, c)

/-- The `dataset` section step of `update_from_config_file`: when the
parsed config has a truthy `dataset` entry, apply it to the default
dataset config. -/
def datasetStep (c : AppConfig) (config : List (String × Nested)) : Option Err × AppConfig :=
  match lookupA config "dataset" with
  | some d =>
    if d.truthy then
      match c.default_dataset_config.update_from_config d "dataset" with
      | (some e, d2) => (some e, { c with default_dataset_config := d2 })
      | (none, d2) => (none, { c with default_dataset_config := d2 })
    else (none, c)
  | none => (none, c)

/-- The `per_dataset_config` loop of `update_from_config_file`: for each
entry, create the dataroot config seeded with the unconditionally read
`dataset` section of the file (a `KeyError` when that key is absent), then
layer the per-dataroot overrides on top. -/
def pdcLoop (c : AppConfig) (config : List (String × Nested)) :
    List (String × Nested) → Option Err × AppConfig
  | [] => (none, c)
  | (key, droot) :: rest =>
    match lookupA config "dataset" with
    | none => (some (.keyError "dataset"), c)
    | some d =>
      match d with
      | .leaf _ => (some .typeError, c)
      | .node dkw =>
        match c.add_dataroot_config key dkw with
        | (some e, c2) => (some e, c2)
        | (none, c2) =>
          match lookupA c2.dataroot_config key with
          | none => (some (.keyError key), c2)
          | some dcfg =>
            match dcfg.update_from_config droot ("per_dataset_config__" ++ key) with
            | (some e, d2) =>
              (some e, { c2 with dataroot_config := setA c2.dataroot_config key d2 })
            | (none, d2) =>
              pdcLoop { c2 with dataroot_config := setA c2.dataroot_config key d2 } config rest

/-- `AppConfig.update_from_config_file` on the already-parsed YAML mapping
(the file read and parse are external): apply the optional `server` and
`dataset` sections, run the `per_dataset_config` loop, and finally assign
the (mistyped) `is_complete` attribute rather than `is_completed`. -/
def AppConfig.update_from_config_data (c : AppConfig) (config : List (String × Nested)) :
    Option Err × AppConfig :=
  match serverStep c config with
  | (some e, c1) => (some e, c1)
  | (none, c1) =>
    match datasetStep c1 config with
    | (some e, c2) => (some e, c2)
    | (none, c2) =>
      match (lookupA config "per_dataset_config").getD (.node []) with
      | .leaf _ => (some .attributeError, c2)
      | .node entries =>
        match pdcLoop c2 config entries with
        | (some e, c3) => (some e, c3)
        | (none, c3) => (none, { c3 with is_complete := some false })

/-- `AppConfig.write_config` up to the external YAML dump: collect every
effective attribute of the server config, the default dataset config and
each dataroot config under double-underscore flat keys (path-valued here)
seeded with the empty `server`/`dataset` (and, when dataroot overrides
exist, `per_dataset_config`) mappings, and unflatten the result. -/
def AppConfig.write_config_model (c : AppConfig) : List (String × Nested) :=
  let server := c.server_config.create_mapping c.server_config.default_config
  let dataset := c.default_dataset_config.create_mapping c.default_dataset_config.default_config
  let flat : List (List String × Value) :=
    (keysOf server).map (fun p => ("server" :: p, c.server_config.getAttrD p)) ++
    (keysOf dataset).map (fun p => ("dataset" :: p, c.default_dataset_config.getAttrD p)) ++
    c.dataroot_config.flatMap (fun td =>
      (keysOf (td.2.create_mapping td.2.default_config)).map
        (fun p => ("per_dataset_config" :: td.1 :: p, td.2.getAttrD p)))
  let init : Nested := .node ([("server", .node []), ("dataset", .node [])] ++
    (if c.dataroot_config.isEmpty then [] else [("per_dataset_config", .node [])]))
  (unflattenInto init flat).childrenOf

/-- The completion context: a dict carrying the supplied message sink, or
the no-op sink when none is given. -/
def contextFor (messagefn : Option (String → Unit)) : Context :=
  ⟨match messagefn with
    | none => noopMsg
    | some f => f⟩

/-- The completion pass over the dataroot configs, in order, recording for
each config reached the tag and the context object it was handed. -/
def completeDataroots (ctx : Context) : List (String × BaseConfig) →
    Option Err × List (String × Context)
  | [] => (none, [])
  | (t, d) :: rest =>
    match d.complete_config ctx with
    | some e => (some e, [(t, ctx)])
    | none =>
      match completeDataroots ctx rest with
      | (e, tr) => (e, (t, ctx) :: tr)

/-- `AppConfig.complete_config`: build the context carrying the message
sink (a no-op when none is supplied), run the completion pass on the
server config, then the default dataset config, then every dataroot
config, and when none fails set `is_completed` and immediately re-run
`check_config`.  The second result component is the post-call state and
the third is the instrumented trace of completion calls, each with the
context object it received. -/
def AppConfig.complete_config (c : AppConfig) (messagefn : Option (String → Unit)) :
    Option Err × AppConfig × List (String × Context) :=
  let context : Context := contextFor messagefn
  match c.server_config.complete_config context with
  | some e => (some e, c, [("server", context)])
  | none =>
    match c.default_dataset_config.complete_config context with
    | some e => (some e, c, [("server", context), ("dataset", context)])
    | none =>
      match completeDataroots context c.dataroot_config with
      | (some e, tr) => (some e, c, ("server", context) :: ("dataset", context) :: tr)
      | (none, tr) =>
        let c2 := { c with is_completed := true }
        (c2.check_config, c2, ("server", context) :: ("dataset", context) :: tr)

/-- A small default configuration with the shape the packaged
`default_config.yml` has: `server` and `dataset` sections of option groups
with option names and defaults; the dataroot mapping declares two tags. -/
def sampleDC : List (String × Nested) :=
  [("server", .node
      [("single_dataset", .node [("datapath", .leaf (.vstr "")), ("title", .leaf .vnone)]),
       ("multi_dataset", .node
         [("dataroot", .leaf (.vdict [("d1", "/data/d1"), ("d2", "/data/d2")]))])]),
   ("dataset", .node
      [("app", .node [("scripts", .leaf (.vbool false))]),
       ("user_annotations", .node [("enable", .leaf (.vbool true))])])]

/-- An `AppConfig` freshly built from the sample default configuration,
with all abstract validation verdicts passing. -/
def cfgA : AppConfig := mkAppConfig sampleDC true true true true

/-- A default configuration that puts the server in single-dataset mode
(non-empty `single_dataset__datapath`). -/
def sampleSingleDC : List (String × Nested) :=
  [("server", .node
      [("single_dataset", .node [("datapath", .leaf (.vstr "/data/a.h5ad"))]),
       ("multi_dataset", .node [("dataroot", .leaf .vnone)])]),
   ("dataset", .node
      [("user_annotations", .node [("enable", .leaf (.vbool true))])])]

/-- An `AppConfig` built from the single-dataset default configuration. -/
def cfgS : AppConfig := mkAppConfig sampleSingleDC true true true true

theorem lookupA_setA_self {κ α : Type} [DecidableEq κ] (l : List (κ × α)) (k : κ) (v : α) :
    lookupA (setA l k v) k = some v := by
  induction l with
  | nil => simp [setA, lookupA]
  | cons h t ih =>
    obtain ⟨a, b⟩ := h
    by_cases hak : a = k
    · simp [setA, hak, lookupA]
    · simp [setA, hak, lookupA, ih]

theorem lookupA_setA_ne {κ α : Type} [DecidableEq κ] (l : List (κ × α)) (k a : κ) (v : α)
    (h : a ≠ k) : lookupA (setA l k v) a = lookupA l a := by
  induction l with
  | nil =>
    simp only [setA, lookupA]
    rw [if_neg (fun hc => h hc.symm)]
  | cons hd t ih =>
    obtain ⟨x, y⟩ := hd
    by_cases hxk : x = k
    · subst hxk
      simp only [setA, if_pos rfl, lookupA]
      rw [if_neg (fun hc => h hc.symm), if_neg (fun hc => h hc.symm)]
    · simp only [setA, if_neg hxk, lookupA]
      by_cases hxa : x = a
      · rw [if_pos hxa, if_pos hxa]
      · rw [if_neg hxa, if_neg hxa, ih]

theorem lookupA_append {κ α : Type} [DecidableEq κ] (l1 l2 : List (κ × α)) (a : κ) :
    lookupA (l1 ++ l2) a =
      match lookupA l1 a with
      | some v => some v
      | none => lookupA l2 a := by
  induction l1 with
  | nil => simp [lookupA]
  | cons hd t ih =>
    obtain ⟨x, y⟩ := hd
    by_cases hxa : x = a
    · simp [lookupA, hxa]
    · simp [lookupA, hxa, ih]

theorem lookupA_isSome_of_mem {κ α : Type} [DecidableEq κ] (l : List (κ × α)) (k : κ)
    (h : k ∈ keysOf l) : (lookupA l k).isSome := by
  induction l with
  | nil => simp [keysOf] at h
  | cons hd t ih =>
    obtain ⟨x, y⟩ := hd
    by_cases hxk : x = k
    · simp [lookupA, hxk]
    · simp [keysOf] at h
      rcases h with h | h
      · exact absurd h.symm hxk
      · simpa [lookupA, hxk] using ih (by simpa [keysOf] using h)

theorem mem_of_lookupA_isSome {κ α : Type} [DecidableEq κ] (l : List (κ × α)) (k : κ)
    (h : (lookupA l k).isSome) : k ∈ keysOf l := by
  induction l with
  | nil => simp [lookupA] at h
  | cons hd t ih =>
    obtain ⟨x, y⟩ := hd
    by_cases hxk : x = k
    · simp [keysOf, hxk]
    · simp [lookupA, hxk] at h
      simpa [keysOf] using Or.inr (by simpa [keysOf] using ih h)

theorem lookupA_eq_none_of_not_mem {κ α : Type} [DecidableEq κ] (l : List (κ × α)) (k : κ)
    (h : k ∉ keysOf l) : lookupA l k = none := by
  cases hl : lookupA l k with
  | none => rfl
  | some v => exact absurd (mem_of_lookupA_isSome l k (by simp [hl])) h

theorem update_err_unknownKey (kw : List (List String × Value)) (b : BaseConfig) (e : Err)
    (h : (b.update kw).1 = some e) : ∃ k, e = .unknownKey k := by
  induction kw generalizing b with
  | nil => simp [BaseConfig.update] at h
  | cons hd t ih =>
    obtain ⟨k, v⟩ := hd
    by_cases hk : (lookupA b.attrs k).isSome
    · rw [BaseConfig.update, if_pos hk] at h
      exact ih _ h
    · rw [BaseConfig.update, if_neg hk] at h
      exact ⟨k, by simpa using h.symm⟩

theorem update_single_lookup (b : BaseConfig) (k : List String) (v : Value)
    (h : (b.update [(k, v)]).1 = none) :
    lookupA (b.update [(k, v)]).2.attrs k = some v := by
  by_cases hk : (lookupA b.attrs k).isSome
  · rw [BaseConfig.update, if_pos hk]
    simpa [BaseConfig.update] using lookupA_setA_self b.attrs k v
  · rw [BaseConfig.update, if_neg hk] at h
    simp at h

/-- C2: whenever the completion flag is false, `check_config` fails with
the "configuration has not been completed" `ConfigurationError`, before
any nested config is consulted, so the verdicts of the nested configs are
irrelevant. -/
theorem check_config_fails_when_not_completed (c : AppConfig)
    (h : c.is_completed = false) : c.check_config = some .notCompleted := by
  simp [AppConfig.check_config, h]

theorem check_config_fails_when_not_completed_witness :
    cfgA.is_completed = false ∧ cfgA.server_config.checkOk = true ∧
    cfgA.default_dataset_config.checkOk = true ∧
    cfgA.check_config = some .notCompleted :=
  ⟨rfl, rfl, rfl, check_config_fails_when_not_completed cfgA rfl⟩

/-- C1: evaluation of the code at the failing input.  After a successful
`complete_config`, a successful `update_server_config` leaves
`is_completed` true (only the distinct, mistyped `is_complete` attribute
is assigned), so the subsequent `check_config` still succeeds — contrary
to the claim that these update methods set `is_completed` to false and
make `check_config` raise `ConfigurationError`. -/
theorem update_server_config_typo_keeps_completion :
    (cfgA.complete_config none).1 = none ∧
    ((cfgA.complete_config none).2.1.update_server_config
        [(["single_dataset", "title"], .vstr "t")]).1 = none ∧
    ((cfgA.complete_config none).2.1.update_server_config
        [(["single_dataset", "title"], .vstr "t")]).2.is_completed = true ∧
    ((cfgA.complete_config none).2.1.update_server_config
        [(["single_dataset", "title"], .vstr "t")]).2.is_complete = some false ∧
    ((cfgA.complete_config none).2.1.update_server_config
        [(["single_dataset", "title"], .vstr "t")]).2.check_config = none :=
  ⟨rfl, rfl, rfl, rfl, rfl⟩

/-- C6: `get_dataset_config` returns the default dataset config whenever
the server's `single_dataset__datapath` is truthy, regardless of the key;
otherwise it returns the dataroot-specific config when the key is present
and the default when it is absent, never failing. -/
theorem get_dataset_config_spec (c : AppConfig) (key : String) :
    ((c.server_config.getAttrD ["single_dataset", "datapath"]).truthy = true →
      c.get_dataset_config key = c.default_dataset_config) ∧
    ((c.server_config.getAttrD ["single_dataset", "datapath"]).truthy = false →
      ∀ d, lookupA c.dataroot_config key = some d → c.get_dataset_config key = d) ∧
    ((c.server_config.getAttrD ["single_dataset", "datapath"]).truthy = false →
      lookupA c.dataroot_config key = none →
      c.get_dataset_config key = c.default_dataset_config) := by
  refine ⟨fun h => ?_, fun h d hd => ?_, fun h hn => ?_⟩
  · simp [AppConfig.get_dataset_config, h]
  · simp [AppConfig.get_dataset_config, h, hd]
  · simp [AppConfig.get_dataset_config, h, hn]

theorem get_dataset_config_spec_witness :
    cfgS.get_dataset_config "anything" = cfgS.default_dataset_config ∧
    cfgA.get_dataset_config "absent" = cfgA.default_dataset_config :=
  ⟨(get_dataset_config_spec cfgS "anything").1 rfl,
   (get_dataset_config_spec cfgA "absent").2.2 rfl rfl⟩

theorem add_dataroot_config_eq_dup (c : AppConfig) (tag : String) (kw : List (String × Nested))
    (h : (lookupA c.dataroot_config tag).isSome = true) :
    c.add_dataroot_config tag kw = (some (.duplicateDataroot tag), c) := by
  simp [AppConfig.add_dataroot_config, h]

theorem add_dataroot_config_eq_attrerr (c : AppConfig) (tag : String)
    (kw : List (String × Nested))
    (h1 : (lookupA c.dataroot_config tag).isSome = false)
    (h2 : lookupA c.server_config.attrs ["multi_dataset", "dataroot"] = none) :
    c.add_dataroot_config tag kw = (some .attributeError, c) := by
  simp [AppConfig.add_dataroot_config, h1, h2]

theorem add_dataroot_config_eq_notdict (c : AppConfig) (tag : String)
    (kw : List (String × Nested)) (v : Value)
    (h1 : (lookupA c.dataroot_config tag).isSome = false)
    (h2 : lookupA c.server_config.attrs ["multi_dataset", "dataroot"] = some v)
    (h3 : ∀ m, v ≠ .vdict m) :
    c.add_dataroot_config tag kw = (some .datarootNotDict, c) := by
  cases v with
  | vdict m => exact absurd rfl (h3 m)
  | vstr s => simp [AppConfig.add_dataroot_config, h1, h2]
  | vint i => simp [AppConfig.add_dataroot_config, h1, h2]
  | vbool b => simp [AppConfig.add_dataroot_config, h1, h2]
  | vnone => simp [AppConfig.add_dataroot_config, h1, h2]

theorem add_dataroot_config_eq_notin (c : AppConfig) (tag : String)
    (kw : List (String × Nested)) (m : List (String × String))
    (h1 : (lookupA c.dataroot_config tag).isSome = false)
    (h2 : lookupA c.server_config.attrs ["multi_dataset", "dataroot"] = some (.vdict m))
    (h3 : lookupA m tag = none) :
    c.add_dataroot_config tag kw = (some (.tagNotInDataroot tag), c) := by
  simp [AppConfig.add_dataroot_config, h1, h2, h3]

theorem add_dataroot_config_ok_err_shape (c : AppConfig) (tag : String)
    (kw : List (String × Nested)) (m : List (String × String)) (e : Err)
    (h1 : (lookupA c.dataroot_config tag).isSome = false)
    (h2 : lookupA c.server_config.attrs ["multi_dataset", "dataroot"] = some (.vdict m))
    (h3 : (lookupA m tag).isSome = true)
    (he : (c.add_dataroot_config tag kw).1 = some e) :
    e = .keyError "dataset" ∨ ∃ k, e = .unknownKey k := by
  simp only [AppConfig.add_dataroot_config, h1, h2, h3, Bool.false_eq_true, if_false,
    if_true] at he
  cases hds : lookupA c.default_config "dataset" with
  | none =>
    rw [hds] at he
    simp at he
    exact Or.inl he.symm
  | some ds =>
    rw [hds] at he
    simp only at he
    generalize hupd : (DatasetConfig.init (some tag) ds c.default_dataset_config.checkOk
        c.default_dataset_config.completeOk).update
        ((c.default_dataset_config.create_mapping
          c.default_dataset_config.default_config).map (fun kv => (kv.1, kv.2.2))) = r at he
    obtain ⟨eo, n2⟩ := r
    cases eo with
    | some e2 =>
      simp at he
      subst he
      exact Or.inr (update_err_unknownKey _ _ _ (by
        simpa using congrArg Prod.fst hupd))
    | none =>
      simp only at he
      generalize hupd2 : n2.update_from_config (.node kw) tag = r2 at he
      obtain ⟨eo2, n3⟩ := r2
      cases eo2 with
      | some e3 =>
        simp at he
        subst he
        exact Or.inr (update_err_unknownKey _ _ _ (by
          simpa [BaseConfig.update_from_config] using congrArg Prod.fst hupd2))
      | none => simp at he

/-- C3: `add_dataroot_config` raises `ConfigurationError` exactly for a
duplicate tag, a non-dict server dataroot mapping, or a tag absent from
that mapping; past those three checks any failure it can still raise
(an unknown option name, or the `KeyError` of a missing `dataset` default
section) is not one of those three errors. -/
theorem add_dataroot_config_error_cases (c : AppConfig) (tag : String)
    (kw : List (String × Nested)) :
    ((lookupA c.dataroot_config tag).isSome = true →
      (c.add_dataroot_config tag kw).1 = some (.duplicateDataroot tag)) ∧
    (∀ v, (lookupA c.dataroot_config tag).isSome = false →
      lookupA c.server_config.attrs ["multi_dataset", "dataroot"] = some v →
      (∀ m, v ≠ .vdict m) →
      (c.add_dataroot_config tag kw).1 = some .datarootNotDict) ∧
    (∀ m, (lookupA c.dataroot_config tag).isSome = false →
      lookupA c.server_config.attrs ["multi_dataset", "dataroot"] = some (.vdict m) →
      lookupA m tag = none →
      (c.add_dataroot_config tag kw).1 = some (.tagNotInDataroot tag)) ∧
    (∀ m, (lookupA c.dataroot_config tag).isSome = false →
      lookupA c.server_config.attrs ["multi_dataset", "dataroot"] = some (.vdict m) →
      (lookupA m tag).isSome = true →
      ∀ e, (c.add_dataroot_config tag kw).1 = some e →
      e.isDatarootPrecondition = false) ∧
    ((lookupA c.dataroot_config tag).isSome = false →
      lookupA c.server_config.attrs ["multi_dataset", "dataroot"] = none →
      ∀ e, (c.add_dataroot_config tag kw).1 = some e →
      e.isDatarootPrecondition = false) := by
  refine ⟨fun h => ?_, fun v h1 h2 h3 => ?_, fun m h1 h2 h3 => ?_,
    fun m h1 h2 h3 e he => ?_, fun h1 h2 e he => ?_⟩
  · rw [add_dataroot_config_eq_dup c tag kw h]
  · rw [add_dataroot_config_eq_notdict c tag kw v h1 h2 h3]
  · rw [add_dataroot_config_eq_notin c tag kw m h1 h2 h3]
  · rcases add_dataroot_config_ok_err_shape c tag kw m e h1 h2 h3 he with h | ⟨k, h⟩ <;>
      simp [h, Err.isDatarootPrecondition]
  · rw [add_dataroot_config_eq_attrerr c tag kw h1 h2] at he
    simp at he
    simp [← he, Err.isDatarootPrecondition]

theorem add_dataroot_config_error_cases_witness :
    (((cfgA.add_dataroot_config "d1" []).2.add_dataroot_config "d1" []).1 =
      some (.duplicateDataroot "d1")) ∧
    ((cfgA.add_dataroot_config "d3" []).1 = some (.tagNotInDataroot "d3")) :=
  ⟨(add_dataroot_config_error_cases (cfgA.add_dataroot_config "d1" []).2 "d1" []).1 rfl,
   (add_dataroot_config_error_cases cfgA "d3" []).2.2.1
     [("d1", "/data/d1"), ("d2", "/data/d2")] rfl rfl rfl⟩

/-- C9: when `add_dataroot_config` fails with one of its three
precondition errors, the whole `AppConfig` state is unchanged: all three
checks run before any mutation. -/
theorem add_dataroot_config_precondition_preserves_state (c : AppConfig) (tag : String)
    (kw : List (String × Nested)) (e : Err)
    (h1 : (c.add_dataroot_config tag kw).1 = some e)
    (h2 : e.isDatarootPrecondition = true) :
    (c.add_dataroot_config tag kw).2 = c := by
  cases hdup : (lookupA c.dataroot_config tag).isSome with
  | true => rw [add_dataroot_config_eq_dup c tag kw hdup]
  | false =>
    cases hattr : lookupA c.server_config.attrs ["multi_dataset", "dataroot"] with
    | none => rw [add_dataroot_config_eq_attrerr c tag kw hdup hattr]
    | some v =>
      cases v with
      | vdict m =>
        cases htag : (lookupA m tag).isSome with
        | false =>
          rw [add_dataroot_config_eq_notin c tag kw m hdup hattr
            (by simpa [Option.isSome_iff_exists] using htag)]
        | true =>
          exfalso
          rcases add_dataroot_config_ok_err_shape c tag kw m e hdup hattr htag h1 with
            h | ⟨k, h⟩ <;> simp [h, Err.isDatarootPrecondition] at h2
      | vstr s =>
        rw [add_dataroot_config_eq_notdict c tag kw _ hdup hattr (fun m => by simp)]
      | vint i =>
        rw [add_dataroot_config_eq_notdict c tag kw _ hdup hattr (fun m => by simp)]
      | vbool b =>
        rw [add_dataroot_config_eq_notdict c tag kw _ hdup hattr (fun m => by simp)]
      | vnone =>
        rw [add_dataroot_config_eq_notdict c tag kw _ hdup hattr (fun m => by simp)]

theorem add_dataroot_config_precondition_preserves_state_witness :
    (cfgA.add_dataroot_config "d3" []).2 = cfgA :=
  add_dataroot_config_precondition_preserves_state cfgA "d3" []
    (.tagNotInDataroot "d3") rfl rfl

theorem updateDataroots_lookup (l : List (String × BaseConfig))
    (kw : List (List String × Value))
    (h : (updateDataroots l kw).1 = none) (t : String) (d : BaseConfig)
    (hd : lookupA l t = some d) :
    ∃ d2, lookupA (updateDataroots l kw).2 t = some d2 ∧ d.update kw = (none, d2) := by
  induction l generalizing t d with
  | nil => simp [lookupA] at hd
  | cons hd0 rest ih =>
    obtain ⟨t0, d0⟩ := hd0
    cases hu : d0.update kw with
    | mk eo d02 =>
      cases eo with
      | some e =>
        rw [updateDataroots, hu] at h
        simp at h
      | none =>
        cases hrest : updateDataroots rest kw with
        | mk e2 rest2 =>
          rw [updateDataroots, hu, hrest] at h ⊢
          simp only at h ⊢
          by_cases ht : t0 = t
          · subst ht
            have hd2 : d = d0 := by
              simp [lookupA] at hd
              exact hd.symm
            subst hd2
            refine ⟨d02, ?_, hu⟩
            simp [lookupA]
          · simp only [lookupA, if_neg ht] at hd ⊢
            rcases ih (by simp [hrest]; exact h) t d hd with ⟨d2, h1, h2⟩
            rw [hrest] at h1
            exact ⟨d2, h1, h2⟩

/-- C7: a successful `update_default_dataset_config` with a named option
applies it to the default dataset config and to every dataroot config that
existed at call time. -/
theorem update_default_dataset_config_propagates (c : AppConfig) (k : List String)
    (v : Value)
    (h : (c.update_default_dataset_config [(k, v)]).1 = none) :
    lookupA (c.update_default_dataset_config [(k, v)]).2.default_dataset_config.attrs k =
      some v ∧
    ∀ tag, (lookupA c.dataroot_config tag).isSome = true →
      ∃ d2, lookupA (c.update_default_dataset_config [(k, v)]).2.dataroot_config tag =
          some d2 ∧ lookupA d2.attrs k = some v := by
  cases hdd : c.default_dataset_config.update [(k, v)] with
  | mk eo dd2 =>
    cases eo with
    | some e =>
      rw [AppConfig.update_default_dataset_config, hdd] at h
      simp at h
    | none =>
      cases hdr : updateDataroots c.dataroot_config [(k, v)] with
      | mk e2 l2 =>
        cases e2 with
        | some e =>
          rw [AppConfig.update_default_dataset_config, hdd, hdr] at h
          simp at h
        | none =>
          simp only [AppConfig.update_default_dataset_config, hdd, hdr]
          constructor
          · have h1 := update_single_lookup c.default_dataset_config k v (by rw [hdd])
            rw [hdd] at h1
            exact h1
          · intro tag htag
            obtain ⟨d, hd⟩ := Option.isSome_iff_exists.mp htag
            rcases updateDataroots_lookup c.dataroot_config [(k, v)]
              (by rw [hdr]) tag d hd with ⟨d2, h1, h2⟩
            rw [hdr] at h1
            refine ⟨d2, h1, ?_⟩
            have h3 := update_single_lookup d k v (by rw [h2])
            rw [h2] at h3
            exact h3

theorem update_default_dataset_config_propagates_witness :
    lookupA ((cfgA.add_dataroot_config "d1" []).2.update_default_dataset_config
        [(["app", "scripts"], .vbool true)]).2.default_dataset_config.attrs
      ["app", "scripts"] = some (.vbool true) ∧
    ∃ d2, lookupA ((cfgA.add_dataroot_config "d1" []).2.update_default_dataset_config
        [(["app", "scripts"], .vbool true)]).2.dataroot_config "d1" = some d2 ∧
      lookupA d2.attrs ["app", "scripts"] = some (.vbool true) := by
  have h := update_default_dataset_config_propagates
    (cfgA.add_dataroot_config "d1" []).2 ["app", "scripts"] (.vbool true) rfl
  exact ⟨h.1, h.2 "d1" rfl⟩

/-- The sample configuration after changing an effective default dataset
value away from its packaged default. -/
def cfgC4 : AppConfig :=
  (cfgA.update_default_dataset_config [(["user_annotations", "enable"], .vbool false)]).2

/-- C4 counterexample: after `update_default_dataset_config` changes
`user_annotations__enable` to false, a successful `add_dataroot_config`
with no overrides seeds the new dataroot config with the packaged default
(true), not with the default dataset config's current effective value
(false), refuting the claim at this input. -/
theorem add_dataroot_config_seeding_counterexample :
    (cfgA.update_default_dataset_config
      [(["user_annotations", "enable"], .vbool false)]).1 = none ∧
    (cfgC4.add_dataroot_config "d1" []).1 = none ∧
    lookupA cfgC4.default_dataset_config.attrs ["user_annotations", "enable"] =
      some (.vbool false) ∧
    ((lookupA (cfgC4.add_dataroot_config "d1" []).2.dataroot_config "d1").map
      (fun b => lookupA b.attrs ["user_annotations", "enable"])) =
      some (some (.vbool true)) ∧
    Value.vbool true ≠ Value.vbool false :=
  ⟨rfl, rfl, rfl, rfl, by decide⟩

theorem lookupA_of_mem_nodup {κ α : Type} [DecidableEq κ] (l : List (κ × α))
    (hnd : (keysOf l).Nodup) (k : κ) (v : α) (h : (k, v) ∈ l) :
    lookupA l k = some v := by
  induction l with
  | nil => simp at h
  | cons hd rest ih =>
    obtain ⟨a, b⟩ := hd
    have hnd2 := hnd
    rw [show keysOf ((a, b) :: rest) = a :: keysOf rest from rfl] at hnd2
    obtain ⟨hna, hndr⟩ := List.nodup_cons.mp hnd2
    rcases List.mem_cons.mp h with heq | hmem
    · obtain ⟨rfl, rfl⟩ := Prod.mk.inj heq.symm
      simp [lookupA]
    · have hane : a ≠ k := by
        intro hak
        subst hak
        exact hna (List.mem_map_of_mem Prod.fst hmem)
      simp only [lookupA, if_neg hane]
      exact ih hndr hmem

theorem update_refl_lookup (kw : List (List String × Value)) (b : BaseConfig)
    (hkw : ∀ k v, (k, v) ∈ kw → lookupA b.attrs k = some v) :
    (b.update kw).1 = none ∧
    ∀ p, lookupA (b.update kw).2.attrs p = lookupA b.attrs p := by
  induction kw generalizing b with
  | nil => simp [BaseConfig.update]
  | cons hd rest ih =>
    obtain ⟨k, v⟩ := hd
    have hk : lookupA b.attrs k = some v := hkw k v (by simp)
    have hsame : ∀ p, lookupA (setA b.attrs k v) p = lookupA b.attrs p := by
      intro p
      by_cases hp : p = k
      · subst hp
        rw [lookupA_setA_self, hk]
      · exact lookupA_setA_ne b.attrs k p v hp
    rw [BaseConfig.update, if_pos (by simp [hk])]
    have ihb := ih { b with attrs := setA b.attrs k v }
      (fun k2 v2 hm => by rw [hsame k2]; exact hkw k2 v2 (by simp [hm]))
    exact ⟨ihb.1, fun p => by rw [ihb.2 p]; exact hsame p⟩

/-- C4 amended: a successful `add_dataroot_config` with no overrides
creates a dataroot config whose attribute values equal the static packaged
defaults of the `dataset` section, rather than the default dataset
config's current effective values. -/
theorem add_dataroot_config_seeds_packaged_defaults (c : AppConfig) (tag : String)
    (ds : Nested)
    (hds0 : lookupA c.default_config "dataset" = some ds)
    (hds : c.default_dataset_config.default_config = ds)
    (hnd : (keysOf (flattenN ds)).Nodup)
    (hok : (c.add_dataroot_config tag []).1 = none) :
    ∃ d, lookupA (c.add_dataroot_config tag []).2.dataroot_config tag = some d ∧
      ∀ p, lookupA d.attrs p = lookupA (flattenN ds) p := by
  cases hdup : (lookupA c.dataroot_config tag).isSome with
  | true => rw [add_dataroot_config_eq_dup c tag [] hdup] at hok; simp at hok
  | false =>
    cases hattr : lookupA c.server_config.attrs ["multi_dataset", "dataroot"] with
    | none => rw [add_dataroot_config_eq_attrerr c tag [] hdup hattr] at hok; simp at hok
    | some v =>
      cases v with
      | vstr s =>
        rw [add_dataroot_config_eq_notdict c tag [] _ hdup hattr (fun m => by simp)] at hok
        simp at hok
      | vint i =>
        rw [add_dataroot_config_eq_notdict c tag [] _ hdup hattr (fun m => by simp)] at hok
        simp at hok
      | vbool b =>
        rw [add_dataroot_config_eq_notdict c tag [] _ hdup hattr (fun m => by simp)] at hok
        simp at hok
      | vnone =>
        rw [add_dataroot_config_eq_notdict c tag [] _ hdup hattr (fun m => by simp)] at hok
        simp at hok
      | vdict m =>
        cases htag : (lookupA m tag).isSome with
        | false =>
          rw [add_dataroot_config_eq_notin c tag [] m hdup hattr
            (Option.not_isSome_iff_eq_none.mp (by simp [htag]))] at hok
          simp at hok
        | true =>
          have hcfg : ((c.default_dataset_config.create_mapping
              c.default_dataset_config.default_config).map (fun kv => (kv.1, kv.2.2))) =
              flattenN ds := by
            rw [hds]
            simp only [BaseConfig.create_mapping, List.map_map]
            rw [show ((fun (kv : List String × (List String × Value)) => (kv.1, kv.2.2)) ∘
                fun (pv : List String × Value) => (pv.1, (pv.1, pv.2))) = id from
              funext fun pv => rfl]
            exact List.map_id _
          simp only [AppConfig.add_dataroot_config, hdup, hattr, htag, Bool.false_eq_true,
            if_false, if_true] at hok ⊢
          simp only [hds0] at hok ⊢
          rw [hcfg] at hok ⊢
          have hupd := update_refl_lookup (flattenN ds)
            (DatasetConfig.init (some tag) ds c.default_dataset_config.checkOk
              c.default_dataset_config.completeOk)
            (fun k v hm => lookupA_of_mem_nodup (flattenN ds) hnd k v hm)
          generalize hgen : (DatasetConfig.init (some tag) ds
              c.default_dataset_config.checkOk
              c.default_dataset_config.completeOk).update (flattenN ds) = r at hok hupd ⊢
          obtain ⟨eo, n2⟩ := r
          obtain ⟨h1, h2⟩ := hupd
          simp only at h1 h2
          subst h1
          simp only at hok ⊢
          refine ⟨n2, lookupA_setA_self _ _ _, fun p => h2 p⟩

theorem add_dataroot_config_seeds_packaged_defaults_witness :
    ∃ d, lookupA (cfgC4.add_dataroot_config "d1" []).2.dataroot_config "d1" = some d ∧
      ∀ p, lookupA d.attrs p =
        lookupA (flattenN (.node
          [("app", .node [("scripts", .leaf (.vbool false))]),
           ("user_annotations", .node [("enable", .leaf (.vbool true))])])) p :=
  add_dataroot_config_seeds_packaged_defaults cfgC4 "d1"
    (.node [("app", .node [("scripts", .leaf (.vbool false))]),
            ("user_annotations", .node [("enable", .leaf (.vbool true))])])
    rfl rfl (by decide) rfl

theorem completeDataroots_trace (ctx : Context) (l : List (String × BaseConfig)) :
    (completeDataroots ctx l).2 <+: l.map (fun td => (td.1, ctx)) ∧
    ((completeDataroots ctx l).1 = none →
      (completeDataroots ctx l).2 = l.map (fun td => (td.1, ctx))) := by
  induction l with
  | nil => simp [completeDataroots]
  | cons hd rest ih =>
    obtain ⟨t, d⟩ := hd
    cases hc : d.complete_config ctx with
    | some e =>
      simp only [completeDataroots, hc, List.map_cons]
      exact ⟨List.cons_prefix_cons.mpr ⟨rfl, List.nil_prefix⟩, fun h => by simp at h⟩
    | none =>
      cases hr : completeDataroots ctx rest with
      | mk e2 tr =>
        rw [hr] at ih
        simp only [completeDataroots, hc, hr, List.map_cons]
        refine ⟨List.cons_prefix_cons.mpr ⟨rfl, ih.1⟩, fun h => ?_⟩
        simp only at h
        have h2 := ih.2 h
        simp only at h2
        rw [h2]

/-- C8: `complete_config` runs the completion pass on the server config,
then the default dataset config, then every dataroot config in order,
handing every one the same context object built from the supplied message
sink (a no-op when none is given); and when it succeeds, `is_completed` is
true and the immediate `check_config` re-validation passes on the
resulting state. -/
theorem complete_config_order_and_gate (c : AppConfig) (mf : Option (String → Unit)) :
    ((c.complete_config mf).2.2 <+:
      ("server", contextFor mf) :: ("dataset", contextFor mf) ::
        c.dataroot_config.map (fun td => (td.1, contextFor mf))) ∧
    ((c.complete_config mf).1 = none →
      (c.complete_config mf).2.2 =
        ("server", contextFor mf) :: ("dataset", contextFor mf) ::
          c.dataroot_config.map (fun td => (td.1, contextFor mf)) ∧
      (c.complete_config mf).2.1.is_completed = true ∧
      (c.complete_config mf).2.1.check_config = none) := by
  cases hs : c.server_config.complete_config (contextFor mf) with
  | some e =>
    simp only [AppConfig.complete_config, hs]
    exact ⟨List.cons_prefix_cons.mpr ⟨rfl, List.nil_prefix⟩, fun h => by simp at h⟩
  | none =>
    cases hd : c.default_dataset_config.complete_config (contextFor mf) with
    | some e =>
      simp only [AppConfig.complete_config, hs, hd]
      refine ⟨List.cons_prefix_cons.mpr ⟨rfl,
        List.cons_prefix_cons.mpr ⟨rfl, List.nil_prefix⟩⟩, fun h => by simp at h⟩
    | none =>
      cases hr : completeDataroots (contextFor mf) c.dataroot_config with
      | mk e2 tr =>
        have htr := completeDataroots_trace (contextFor mf) c.dataroot_config
        rw [hr] at htr
        cases e2 with
        | some e =>
          simp only [AppConfig.complete_config, hs, hd, hr]
          refine ⟨List.cons_prefix_cons.mpr ⟨rfl,
            List.cons_prefix_cons.mpr ⟨rfl, htr.1⟩⟩, fun h => by simp at h⟩
        | none =>
          simp only [AppConfig.complete_config, hs, hd, hr]
          have h2 := htr.2 rfl
          simp only at h2
          rw [h2]
          refine ⟨List.cons_prefix_cons.mpr ⟨rfl,
            List.cons_prefix_cons.mpr ⟨rfl, List.prefix_refl _⟩⟩, fun h => ⟨rfl, by trivial, h⟩⟩

theorem complete_config_order_and_gate_witness :
    (cfgA.complete_config none).2.2 =
      ("server", contextFor none) :: ("dataset", contextFor none) ::
        cfgA.dataroot_config.map (fun td => (td.1, contextFor none)) ∧
    (cfgA.complete_config none).2.1.is_completed = true ∧
    (cfgA.complete_config none).2.1.check_config = none :=
  (complete_config_order_and_gate cfgA none).2 rfl

/-- C10 counterexample: a config whose parsed mapping has a non-empty
`per_dataset_config` section and no top-level `dataset` key, but whose
`server` section holds an unknown option, makes `update_from_config_file`
fail with a `ConfigurationError` (unknown name) from the server-section
update — not with the claimed lookup error — so the claim is false as a
universal statement over such config files. -/
theorem update_from_config_missing_dataset_counterexample :
    lookupA [("server", Nested.node [("bogus", Nested.leaf (.vint 1))]),
      ("per_dataset_config", Nested.node [("d1", Nested.node [])])] "dataset" =
      (none : Option Nested) ∧
    lookupA [("server", Nested.node [("bogus", Nested.leaf (.vint 1))]),
      ("per_dataset_config", Nested.node [("d1", Nested.node [])])] "per_dataset_config" =
      some (.node [("d1", .node [])]) ∧
    (cfgA.update_from_config_data
      [("server", .node [("bogus", .leaf (.vint 1))]),
       ("per_dataset_config", .node [("d1", .node [])])]).1 =
      some (.unknownKey ["bogus"]) ∧
    (Err.unknownKey ["bogus"]).isConfigurationError = true :=
  ⟨rfl, rfl, rfl, rfl⟩

/-- C10 amended: for a parsed config with a non-empty `per_dataset_config`
mapping and no top-level `dataset` key, provided the `server` section step
raises nothing, `update_from_config_file` fails with the `KeyError` on
`"dataset"` (not a `ConfigurationError`) on the first per-dataroot entry,
leaving the state as the server step left it. -/
theorem update_from_config_missing_dataset_keyerror (c : AppConfig)
    (config : List (String × Nested)) (entries : List (String × Nested))
    (hnd : lookupA config "dataset" = none)
    (hpdc : lookupA config "per_dataset_config" = some (.node entries))
    (hne : entries ≠ [])
    (hserver : (serverStep c config).1 = none) :
    c.update_from_config_data config = (some (.keyError "dataset"), (serverStep c config).2) ∧
    (Err.keyError "dataset").isConfigurationError = false := by
  refine ⟨?_, rfl⟩
  cases hs : serverStep c config with
  | mk eo c1 =>
    rw [hs] at hserver
    simp only at hserver
    subst hserver
    have hds : datasetStep c1 config = (none, c1) := by
      simp [datasetStep, hnd]
    cases entries with
    | nil => exact absurd rfl hne
    | cons e0 rest =>
      have hloop : pdcLoop c1 config (e0 :: rest) = (some (.keyError "dataset"), c1) := by
        obtain ⟨key, droot⟩ := e0
        simp [pdcLoop, hnd]
      simp only [AppConfig.update_from_config_data, hs, hds, hpdc, Option.getD_some, hloop]

theorem update_from_config_missing_dataset_keyerror_witness :
    cfgA.update_from_config_data [("per_dataset_config", .node [("d1", .node [])])] =
      (some (.keyError "dataset"),
        (serverStep cfgA [("per_dataset_config", .node [("d1", .node [])])]).2) ∧
    (Err.keyError "dataset").isConfigurationError = false :=
  update_from_config_missing_dataset_keyerror cfgA
    [("per_dataset_config", .node [("d1", .node [])])] [("d1", .node [])]
    rfl rfl (by simp) rfl

/-- Two key paths are incomparable when neither is a prefix of the other;
flat keys of a well-formed mapping are pairwise incomparable. -/
def Incomp (p q : List String) : Prop := ¬ p <+: q ∧ ¬ q <+: p

/-- Whether a parsed YAML object is a mapping. -/
def Nested.isNode : Nested → Bool
  | .leaf _ => false
  | .node _ => true

theorem lookupPath_node_nil (p : List String) : Nested.lookupPath (.node []) p = none := by
  cases p <;> simp [Nested.lookupPath, lookupA]

theorem lookupPath_cons (t : Nested) (a : String) (as : List String) :
    t.lookupPath (a :: as) =
      match t.getChild a with
      | some ch => ch.lookupPath as
      | none => none := by
  cases t <;> rfl

theorem truthy_of_lookupPath_cons (t : Nested) (a : String) (as : List String) (v : Value)
    (h : t.lookupPath (a :: as) = some v) : t.truthy = true := by
  cases t with
  | leaf w => simp [Nested.lookupPath] at h
  | node cs =>
    cases cs with
    | nil => rw [lookupPath_node_nil] at h; simp at h
    | cons x rest => simp [Nested.truthy]

theorem lookupA_replaceC_self (cs : List (String × Nested)) (k : String) (x t0 : Nested)
    (h : lookupA cs k = some t0) : lookupA (replaceC cs k x) k = some x := by
  induction cs with
  | nil => simp [lookupA] at h
  | cons hd rest ih =>
    obtain ⟨a, t⟩ := hd
    by_cases hak : a = k
    · simp [replaceC, hak, lookupA]
    · rw [lookupA] at h
      rw [if_neg hak] at h
      simp only [replaceC, if_neg hak, lookupA]
      exact ih h

theorem lookupA_replaceC_ne (cs : List (String × Nested)) (k a : String) (x : Nested)
    (h : a ≠ k) : lookupA (replaceC cs k x) a = lookupA cs a := by
  induction cs with
  | nil => simp [replaceC]
  | cons hd rest ih =>
    obtain ⟨b, t⟩ := hd
    by_cases hbk : b = k
    · subst hbk
      simp only [replaceC, if_pos rfl, lookupA]
      rw [if_neg (fun hc => h hc.symm), if_neg (fun hc => h hc.symm), ih]
    · simp only [replaceC, if_neg hbk, lookupA]
      by_cases hba : b = a
      · rw [if_pos hba, if_pos hba]
      · rw [if_neg hba, if_neg hba, ih]

theorem keysOf_replaceC (cs : List (String × Nested)) (k : String) (x : Nested) :
    keysOf (replaceC cs k x) = keysOf cs := by
  induction cs with
  | nil => simp [replaceC]
  | cons hd rest ih =>
    obtain ⟨a, t⟩ := hd
    by_cases hak : a = k
    · simp [replaceC, hak, keysOf] at ih ⊢
      exact ih
    · simp [replaceC, hak, keysOf] at ih ⊢
      exact ih

theorem lookupPath_insertPath_self (p : List String) (t : Nested) (v : Value) :
    (insertPath t p v).lookupPath p = some v := by
  induction p generalizing t with
  | nil => simp [insertPath, Nested.lookupPath]
  | cons k ks ih =>
    cases t with
    | leaf w => simp [insertPath, Nested.lookupPath, lookupA, ih]
    | node cs =>
      cases hl : lookupA cs k with
      | some t0 =>
        simp only [insertPath, hl, Nested.lookupPath]
        rw [lookupA_replaceC_self cs k _ t0 hl]
        exact ih _
      | none =>
        simp only [insertPath, hl, Nested.lookupPath]
        rw [lookupA_append]
        rw [hl]
        simp only [lookupA, if_pos rfl]
        exact ih _

theorem getChild_insertPath_ne (t : Nested) (k : String) (ks : List String) (v : Value)
    (a : String) (h : a ≠ k) : (insertPath t (k :: ks) v).getChild a = t.getChild a := by
  cases t with
  | leaf w =>
    simp only [insertPath, Nested.getChild, Nested.childrenOf, lookupA]
    rw [if_neg (fun hc => h hc.symm)]
  | node cs =>
    cases hl : lookupA cs k with
    | some t0 =>
      simp only [insertPath, hl, Nested.getChild, Nested.childrenOf]
      exact lookupA_replaceC_ne cs k a _ h
    | none =>
      simp only [insertPath, hl, Nested.getChild, Nested.childrenOf]
      rw [lookupA_append]
      cases ha : lookupA cs a with
      | some u => rfl
      | none =>
        simp only [lookupA]
        rw [if_neg (fun hc => h hc.symm)]

theorem lookupPath_insertPath_deeper (q : List String) (t : Nested) (w : Value)
    (a : String) (rest : List String) :
    (insertPath t q w).lookupPath (q ++ a :: rest) = none := by
  induction q generalizing t with
  | nil => simp [insertPath, Nested.lookupPath]
  | cons k ks ih =>
    cases t with
    | leaf u => simp [insertPath, Nested.lookupPath, lookupA, ih]
    | node cs =>
      cases hl : lookupA cs k with
      | some t0 =>
        simp only [insertPath, hl, List.cons_append, Nested.lookupPath]
        rw [lookupA_replaceC_self cs k _ t0 hl]
        exact ih _
      | none =>
        simp only [insertPath, hl, List.cons_append, Nested.lookupPath]
        rw [lookupA_append, hl]
        simp only [lookupA, if_pos rfl]
        exact ih _

theorem lookupPath_insertPath_shorter (q p : List String) (t : Nested) (w : Value)
    (hne : p ≠ q) (hpre : p <+: q) : (insertPath t q w).lookupPath p = none := by
  induction q generalizing p t with
  | nil => exact absurd (List.prefix_nil.mp hpre) hne
  | cons k ks ih =>
    cases p with
    | nil =>
      cases t with
      | leaf u => simp [insertPath, Nested.lookupPath]
      | node cs =>
        cases hl : lookupA cs k with
        | some t0 => simp [insertPath, hl, Nested.lookupPath]
        | none => simp [insertPath, hl, Nested.lookupPath]
    | cons a as =>
      obtain ⟨rfl, hpre2⟩ := List.cons_prefix_cons.mp hpre
      have hne2 : as ≠ ks := fun hc => hne (by rw [hc])
      cases t with
      | leaf u =>
        simp only [insertPath, Nested.lookupPath, lookupA, if_pos rfl]
        exact ih as _ hne2 hpre2
      | node cs =>
        cases hl : lookupA cs a with
        | some t0 =>
          simp only [insertPath, hl, Nested.lookupPath]
          rw [lookupA_replaceC_self cs a _ t0 hl]
          exact ih as _ hne2 hpre2
        | none =>
          simp only [insertPath, hl, Nested.lookupPath]
          rw [lookupA_append, hl]
          simp only [lookupA, if_pos rfl]
          exact ih as _ hne2 hpre2

theorem getChild_insertPath_self (t : Nested) (k : String) (ks : List String) (w : Value) :
    (insertPath t (k :: ks) w).getChild k =
      some (insertPath ((t.getChild k).getD (.node [])) ks w) := by
  cases t with
  | leaf u => simp [insertPath, Nested.getChild, Nested.childrenOf, lookupA]
  | node cs =>
    cases hl : lookupA cs k with
    | some t0 =>
      simp only [insertPath, hl, Nested.getChild, Nested.childrenOf, Option.getD_some]
      exact lookupA_replaceC_self cs k _ t0 hl
    | none =>
      simp only [insertPath, hl, Nested.getChild, Nested.childrenOf, Option.getD_none]
      rw [lookupA_append, hl]
      simp [lookupA]

theorem lookupPath_insertPath_incomp (q : List String) (t : Nested) (w : Value)
    (p : List String) (h : Incomp p q) :
    (insertPath t q w).lookupPath p = t.lookupPath p := by
  induction q generalizing t p with
  | nil => exact absurd List.nil_prefix h.2
  | cons k ks ih =>
    cases p with
    | nil => exact absurd List.nil_prefix h.1
    | cons a as =>
      by_cases hak : a = k
      · subst hak
        have h2 : Incomp as ks :=
          ⟨fun hx => h.1 (List.cons_prefix_cons.mpr ⟨rfl, hx⟩),
           fun hx => h.2 (List.cons_prefix_cons.mpr ⟨rfl, hx⟩)⟩
        rw [lookupPath_cons, lookupPath_cons, getChild_insertPath_self]
        show (insertPath ((t.getChild a).getD (.node [])) ks w).lookupPath as =
          (match t.getChild a with
            | some ch => ch.lookupPath as
            | none => none)
        rw [ih _ _ h2]
        cases hgc : t.getChild a with
        | some ch => simp
        | none => simp [lookupPath_node_nil]
      · rw [lookupPath_cons, lookupPath_cons, getChild_insertPath_ne t k ks w a hak]

theorem unflattenInto_cons (t : Nested) (q : List String) (w : Value)
    (rest : List (List String × Value)) :
    unflattenInto t ((q, w) :: rest) = unflattenInto (insertPath t q w) rest := rfl

theorem lookupPath_unflatten_pres (kvs : List (List String × Value)) (t : Nested)
    (p : List String) (h : ∀ x ∈ kvs, Incomp p x.1) :
    (unflattenInto t kvs).lookupPath p = t.lookupPath p := by
  induction kvs generalizing t with
  | nil => rfl
  | cons hd rest ih =>
    obtain ⟨q, w⟩ := hd
    rw [unflattenInto_cons, ih _ (fun x hx => h x (List.mem_cons_of_mem _ hx))]
    exact lookupPath_insertPath_incomp q t w p (h (q, w) (List.mem_cons_self _ _))

theorem lookupPath_unflatten_some (kvs : List (List String × Value)) (t : Nested)
    (p : List String) (v : Value)
    (hpair : kvs.Pairwise (fun x y => Incomp x.1 y.1))
    (hl : lookupA kvs p = some v) :
    (unflattenInto t kvs).lookupPath p = some v := by
  induction kvs generalizing t with
  | nil => simp [lookupA] at hl
  | cons hd rest ih =>
    obtain ⟨q, w⟩ := hd
    obtain ⟨h1, h2⟩ := List.pairwise_cons.mp hpair
    by_cases hqp : q = p
    · subst hqp
      simp only [lookupA, eq_self_iff_true, if_true, Option.some.injEq] at hl
      subst hl
      rw [unflattenInto_cons,
        lookupPath_unflatten_pres rest _ q (fun x hx => h1 x hx)]
      exact lookupPath_insertPath_self q t w
    · rw [lookupA] at hl
      rw [if_neg hqp] at hl
      rw [unflattenInto_cons]
      exact ih _ h2 hl

theorem lookupPath_unflatten_none (kvs : List (List String × Value)) (t : Nested)
    (p : List String)
    (hl : lookupA kvs p = none) (ht : t.lookupPath p = none) :
    (unflattenInto t kvs).lookupPath p = none := by
  induction kvs generalizing t with
  | nil => exact ht
  | cons hd rest ih =>
    obtain ⟨q, w⟩ := hd
    have hqp : q ≠ p := by
      intro hc
      rw [lookupA, if_pos hc] at hl
      simp at hl
    have hrest : lookupA rest p = none := by
      rw [lookupA, if_neg hqp] at hl
      exact hl
    rw [unflattenInto_cons]
    refine ih _ hrest ?_
    by_cases hpq : p <+: q
    · exact lookupPath_insertPath_shorter q p t w (fun hc => hqp hc.symm) hpq
    · by_cases hqp2 : q <+: p
      · obtain ⟨tail, rfl⟩ := hqp2
        cases tail with
        | nil => exact absurd (by simp) hqp
        | cons a rest2 => exact lookupPath_insertPath_deeper q t w a rest2
      · rw [lookupPath_insertPath_incomp q t w p ⟨hpq, hqp2⟩]
        exact ht

theorem getChild_unflatten_ne (kvs : List (List String × Value)) (t : Nested) (a : String)
    (h : ∀ x ∈ kvs, ∃ k ks, x.1 = k :: ks ∧ k ≠ a) :
    (unflattenInto t kvs).getChild a = t.getChild a := by
  induction kvs generalizing t with
  | nil => rfl
  | cons hd rest ih =>
    obtain ⟨q, w⟩ := hd
    obtain ⟨k, ks, hq, hk⟩ := h (q, w) (List.mem_cons_self _ _)
    simp only at hq
    subst hq
    rw [unflattenInto_cons, ih _ (fun x hx => h x (List.mem_cons_of_mem _ hx))]
    exact getChild_insertPath_ne t k ks w a (fun hc => hk hc.symm)

theorem wfC_lookup (cs : List (String × Nested)) (k : String) (t : Nested)
    (hw : wfC cs = true) (hl : lookupA cs k = some t) : wfN t = true := by
  induction cs with
  | nil => simp [lookupA] at hl
  | cons hd rest ih =>
    obtain ⟨a, u⟩ := hd
    simp only [wfC, Bool.and_eq_true] at hw
    obtain ⟨⟨hna, hu⟩, hrest⟩ := hw
    rw [lookupA] at hl
    by_cases hak : a = k
    · rw [if_pos hak] at hl
      simp only [Option.some.injEq] at hl
      rw [← hl]
      exact hu
    · rw [if_neg hak] at hl
      exact ih hrest hl

theorem wfN_getChild (t : Nested) (a : String) (ch : Nested)
    (hw : wfN t = true) (hc : t.getChild a = some ch) : wfN ch = true := by
  cases t with
  | leaf v => simp [Nested.getChild, Nested.childrenOf, lookupA] at hc
  | node cs =>
    simp only [wfN] at hw
    exact wfC_lookup cs a ch hw hc

theorem wfC_replaceC (cs : List (String × Nested)) (k : String) (x : Nested)
    (hw : wfC cs = true) (hx : wfN x = true) : wfC (replaceC cs k x) = true := by
  induction cs with
  | nil => simp [replaceC, wfC]
  | cons hd rest ih =>
    obtain ⟨a, u⟩ := hd
    simp only [wfC, Bool.and_eq_true] at hw
    obtain ⟨⟨hna, hu⟩, hrest⟩ := hw
    by_cases hak : a = k
    · subst hak
      simp only [replaceC, if_pos rfl, wfC, Bool.and_eq_true, keysOf_replaceC]
      exact ⟨⟨hna, hx⟩, ih hrest⟩
    · simp only [replaceC, if_neg hak, wfC, Bool.and_eq_true, keysOf_replaceC]
      exact ⟨⟨hna, hu⟩, ih hrest⟩

theorem wfC_append_single (cs : List (String × Nested)) (k : String) (x : Nested)
    (hw : wfC cs = true) (hnl : lookupA cs k = none) (hx : wfN x = true) :
    wfC (cs ++ [(k, x)]) = true := by
  induction cs with
  | nil => simp [wfC, keysOf, hx]
  | cons hd rest ih =>
    obtain ⟨a, u⟩ := hd
    simp only [wfC, Bool.and_eq_true] at hw
    obtain ⟨⟨hna, hu⟩, hrest⟩ := hw
    rw [lookupA] at hnl
    have hak : a ≠ k := by
      intro hc
      rw [if_pos hc] at hnl
      simp at hnl
    rw [if_neg hak] at hnl
    simp only [List.cons_append, wfC, Bool.and_eq_true]
    refine ⟨⟨?_, hu⟩, ih hrest hnl⟩
    have hna2 : a ∉ keysOf rest := by simpa using hna
    simp [keysOf] at hna2 ⊢
    exact ⟨hna2, hak⟩

theorem wf_insertPath (p : List String) (t : Nested) (v : Value)
    (hw : wfN t = true) : wfN (insertPath t p v) = true := by
  induction p generalizing t with
  | nil => cases t <;> rfl
  | cons k ks ih =>
    cases t with
    | leaf u =>
      simp only [insertPath, wfN, wfC, keysOf, Bool.and_eq_true]
      exact ⟨⟨by simp, ih (.node []) rfl⟩, by trivial⟩
    | node cs =>
      simp only [wfN] at hw
      cases hl : lookupA cs k with
      | some t0 =>
        simp only [insertPath, hl, wfN]
        exact wfC_replaceC cs k _ hw (ih t0 (wfC_lookup cs k t0 hw hl))
      | none =>
        simp only [insertPath, hl, wfN]
        exact wfC_append_single cs k _ hw hl (ih (.node []) rfl)

theorem wf_unflatten (kvs : List (List String × Value)) (t : Nested)
    (hw : wfN t = true) : wfN (unflattenInto t kvs) = true := by
  induction kvs generalizing t with
  | nil => exact hw
  | cons hd rest ih =>
    obtain ⟨q, w⟩ := hd
    rw [unflattenInto_cons]
    exact ih _ (wf_insertPath q t w hw)

theorem lookupA_map_consKey (keys : List (List String)) (f : List String → Value)
    (h : String) (k : List String) :
    lookupA (keys.map (fun p => (h :: p, f p))) (h :: k) =
      if k ∈ keys then some (f k) else none := by
  induction keys with
  | nil => simp [lookupA]
  | cons q rest ih =>
    by_cases hqk : q = k
    · subst hqk
      simp [lookupA]
    · simp only [List.map_cons, lookupA, List.cons.injEq]
      rw [if_neg (fun hc => hqk (hc.2)), ih]
      have hkq : ¬ k = q := fun hc => hqk hc.symm
      by_cases hk : k ∈ rest
      · simp [hk]
      · simp [hk, hkq]

theorem lookupA_map_consKey_ne (keys : List (List String)) (f : List String → Value)
    (h a : String) (hne : a ≠ h) (k : List String) :
    lookupA (keys.map (fun p => (h :: p, f p))) (a :: k) = none := by
  induction keys with
  | nil => simp [lookupA]
  | cons q rest ih =>
    simp only [List.map_cons, lookupA, List.cons.injEq]
    rw [if_neg (fun hc => hne hc.1.symm), ih]

theorem mem_keysOf_flattenC (cs : List (String × Nested)) (q : List String)
    (h : q ∈ keysOf (flattenC cs)) : ∃ a as, q = a :: as ∧ a ∈ keysOf cs := by
  induction cs with
  | nil => simp [flattenC, keysOf] at h
  | cons hd rest ih =>
    obtain ⟨k, t⟩ := hd
    simp only [flattenC, keysOf, List.map_append, List.map_map, List.mem_append] at h
    rcases h with h | h
    · rw [List.mem_map] at h
      obtain ⟨pv, hmem, hpv⟩ := h
      refine ⟨k, pv.1, ?_, by simp [keysOf]⟩
      rw [← hpv]
      rfl
    · have h2 : q ∈ keysOf (flattenC rest) := h
      obtain ⟨a, as, hq, ha⟩ := ih h2
      refine ⟨a, as, hq, ?_⟩
      simp only [keysOf, List.map_cons, List.mem_cons]
      exact Or.inr ha

theorem Incomp_cons_same (h : String) (p q : List String) (hi : Incomp p q) :
    Incomp (h :: p) (h :: q) :=
  ⟨fun hc => hi.1 (List.cons_prefix_cons.mp hc).2,
   fun hc => hi.2 (List.cons_prefix_cons.mp hc).2⟩

theorem Incomp_cons_ne (h1 h2 : String) (p q : List String) (hne : h1 ≠ h2) :
    Incomp (h1 :: p) (h2 :: q) :=
  ⟨fun hc => hne (List.cons_prefix_cons.mp hc).1,
   fun hc => hne ((List.cons_prefix_cons.mp hc).1).symm⟩

theorem lookupA_consMap_nil (l : List (List String × Value)) (k : String) :
    lookupA (l.map (fun pv => (k :: pv.1, pv.2))) ([] : List String) = none := by
  induction l with
  | nil => simp [lookupA]
  | cons x xs ih => simp [lookupA, ih]

theorem lookupA_consMap_ne (l : List (List String × Value)) (k a : String) (hne : a ≠ k)
    (as : List String) :
    lookupA (l.map (fun pv => (k :: pv.1, pv.2))) (a :: as) = none := by
  induction l with
  | nil => simp [lookupA]
  | cons x xs ih =>
    simp only [List.map_cons, lookupA, List.cons.injEq]
    rw [if_neg (fun hc => hne hc.1.symm), ih]

theorem lookupA_consMap_same (l : List (List String × Value)) (k : String)
    (as : List String) :
    lookupA (l.map (fun pv => (k :: pv.1, pv.2))) (k :: as) = lookupA l as := by
  induction l with
  | nil => simp [lookupA]
  | cons x xs ih =>
    obtain ⟨xp, xv⟩ := x
    by_cases hx : xp = as
    · subst hx
      simp [lookupA]
    · simp only [List.map_cons, lookupA, List.cons.injEq]
      rw [if_neg (fun hc => hx hc.2), if_neg hx, ih]

mutual

theorem lookupA_flattenN (t : Nested) (hw : wfN t = true) (p : List String) :
    lookupA (flattenN t) p = t.lookupPath p := by
  cases t with
  | leaf v =>
    cases p with
    | nil => simp [flattenN, lookupA, Nested.lookupPath]
    | cons a as => simp [flattenN, lookupA, Nested.lookupPath]
  | node cs => exact lookupA_flattenC cs (by simpa [wfN] using hw) p

theorem lookupA_flattenC (cs : List (String × Nested)) (hw : wfC cs = true)
    (p : List String) :
    lookupA (flattenC cs) p = Nested.lookupPath (.node cs) p := by
  cases cs with
  | nil =>
    rw [lookupPath_node_nil]
    simp [flattenC, lookupA]
  | cons hd rest =>
    obtain ⟨k, t⟩ := hd
    simp only [wfC, Bool.and_eq_true] at hw
    obtain ⟨⟨hna, ht⟩, hrest⟩ := hw
    have hna2 : k ∉ keysOf rest := by simpa using hna
    cases p with
    | nil =>
      simp only [flattenC]
      rw [lookupA_append, lookupA_consMap_nil]
      show lookupA (flattenC rest) ([] : List String) = _
      rw [lookupA_flattenC rest hrest ([] : List String)]
      simp [Nested.lookupPath]
    | cons a as =>
      simp only [flattenC]
      rw [lookupA_append]
      by_cases hak : a = k
      · subst hak
        rw [lookupA_consMap_same, lookupA_flattenN t ht as]
        have hR : Nested.lookupPath (.node ((a, t) :: rest)) (a :: as) =
            t.lookupPath as := by
          simp [Nested.lookupPath, lookupA]
        rw [hR]
        cases hlp : t.lookupPath as with
        | some v => simp
        | none =>
          show lookupA (flattenC rest) (a :: as) = none
          rw [lookupA_flattenC rest hrest (a :: as)]
          simp only [Nested.lookupPath]
          rw [lookupA_eq_none_of_not_mem rest a hna2]
      · rw [lookupA_consMap_ne _ k a hak]
        show lookupA (flattenC rest) (a :: as) = _
        rw [lookupA_flattenC rest hrest (a :: as)]
        simp only [Nested.lookupPath, lookupA]
        rw [if_neg (fun hc => hak hc.symm)]

end

mutual

theorem pairwise_incomp_flattenN (t : Nested) (hw : wfN t = true) :
    (flattenN t).Pairwise (fun x y => Incomp x.1 y.1) := by
  cases t with
  | leaf v => simp [flattenN]
  | node cs => exact pairwise_incomp_flattenC cs (by simpa [wfN] using hw)

theorem pairwise_incomp_flattenC (cs : List (String × Nested)) (hw : wfC cs = true) :
    (flattenC cs).Pairwise (fun x y => Incomp x.1 y.1) := by
  cases cs with
  | nil => simp [flattenC]
  | cons hd rest =>
    obtain ⟨k, t⟩ := hd
    simp only [wfC, Bool.and_eq_true] at hw
    obtain ⟨⟨hna, ht⟩, hrest⟩ := hw
    have hna2 : k ∉ keysOf rest := by simpa using hna
    simp only [flattenC]
    rw [List.pairwise_append]
    refine ⟨?_, pairwise_incomp_flattenC rest hrest, ?_⟩
    · rw [List.pairwise_map]
      exact (pairwise_incomp_flattenN t ht).imp
        (fun hxy => Incomp_cons_same k _ _ hxy)
    · intro x hx y hy
      rw [List.mem_map] at hx
      obtain ⟨pv, _, hpv⟩ := hx
      have hy2 : y.1 ∈ keysOf (flattenC rest) := List.mem_map_of_mem Prod.fst hy
      obtain ⟨a, as, hy1, ha⟩ := mem_keysOf_flattenC rest y.1 hy2
      rw [← hpv, hy1]
      exact Incomp_cons_ne k a _ _ (fun hc => hna2 (hc ▸ ha))

end

theorem nodup_keysOf_of_pairwise (l : List (List String × Value))
    (h : l.Pairwise (fun x y => Incomp x.1 y.1)) : (keysOf l).Nodup := by
  have h2 : (List.map Prod.fst l).Pairwise (fun a b => a ≠ b) := by
    rw [List.pairwise_map]
    refine h.imp ?_
    intro x y hxy hc
    exact hxy.1 (by rw [hc])
  exact h2

theorem keys_flattenN_cons (sec : Nested) (hn : sec.isNode = true) (p : List String)
    (h : p ∈ keysOf (flattenN sec)) : ∃ a as, p = a :: as := by
  cases sec with
  | leaf v => simp [Nested.isNode] at hn
  | node cs =>
    obtain ⟨a, as, hp, _⟩ := mem_keysOf_flattenC cs p h
    exact ⟨a, as, hp⟩

theorem update_spec (kw : List (List String × Value)) (b : BaseConfig)
    (hnd : (keysOf kw).Nodup)
    (hin : ∀ k ∈ keysOf kw, (lookupA b.attrs k).isSome) :
    (b.update kw).1 = none ∧
    ∀ a, lookupA (b.update kw).2.attrs a =
      (match lookupA kw a with
       | some v => some v
       | none => lookupA b.attrs a) := by
  induction kw generalizing b with
  | nil => simp [BaseConfig.update, lookupA]
  | cons hd rest ih =>
    obtain ⟨k, v⟩ := hd
    have hnd2 := hnd
    rw [show keysOf ((k, v) :: rest) = k :: keysOf rest from rfl] at hnd2
    obtain ⟨hkn, hndr⟩ := List.nodup_cons.mp hnd2
    have hk : (lookupA b.attrs k).isSome :=
      hin k (show k ∈ k :: keysOf rest from List.mem_cons_self _ _)
    rw [BaseConfig.update, if_pos hk]
    have hins : ∀ k2 ∈ keysOf rest,
        (lookupA (setA b.attrs k v) k2).isSome := by
      intro k2 hk2
      have hk2k : k2 ≠ k := fun hc => hkn (hc ▸ hk2)
      rw [lookupA_setA_ne b.attrs k k2 v hk2k]
      exact hin k2 (show k2 ∈ k :: keysOf rest from List.mem_cons_of_mem _ hk2)
    have ihb := ih { b with attrs := setA b.attrs k v } hndr hins
    refine ⟨ihb.1, fun a => ?_⟩
    rw [ihb.2 a]
    by_cases hak : k = a
    · subst hak
      have hra : lookupA rest k = none :=
        lookupA_eq_none_of_not_mem rest k hkn
      rw [hra]
      simp only [lookupA, if_pos rfl]
      exact lookupA_setA_self b.attrs k v
    · rw [show lookupA ((k, v) :: rest) a = lookupA rest a from by
        rw [lookupA, if_neg hak]]
      cases hr : lookupA rest a with
      | some v2 => rfl
      | none => exact lookupA_setA_ne b.attrs k a v (fun hc => hak hc.symm)

theorem pairwise_incomp_keysOf (t : Nested) (hw : wfN t = true) :
    (keysOf (flattenN t)).Pairwise Incomp := by
  rw [keysOf, List.pairwise_map]
  exact pairwise_incomp_flattenN t hw

theorem keysOf_create_mapping (b : BaseConfig) (cfg : Nested) :
    keysOf (b.create_mapping cfg) = keysOf (flattenN cfg) := by
  simp only [BaseConfig.create_mapping, keysOf, List.map_map]
  rw [show (Prod.fst ∘ fun (pv : List String × Value) => (pv.1, (pv.1, pv.2))) = Prod.fst
    from funext fun pv => rfl]

theorem getAttrD_eq (b : BaseConfig) (p : List String)
    (h : (lookupA b.attrs p).isSome) : some (b.getAttrD p) = lookupA b.attrs p := by
  obtain ⟨v, hv⟩ := Option.isSome_iff_exists.mp h
  rw [BaseConfig.getAttrD, hv]
  rfl

theorem lookupPath_unflatten_blocks (h1 h2 : String) (hne : h1 ≠ h2)
    (sKeys dKeys : List (List String)) (fs fd : List String → Value)
    (hps : sKeys.Pairwise Incomp) (hpd : dKeys.Pairwise Incomp) :
    (∀ p, (unflattenInto (.node [(h1, .node []), (h2, .node [])])
        (sKeys.map (fun p => (h1 :: p, fs p)) ++
         dKeys.map (fun p => (h2 :: p, fd p)))).lookupPath (h1 :: p) =
      if p ∈ sKeys then some (fs p) else none) ∧
    (∀ p, (unflattenInto (.node [(h1, .node []), (h2, .node [])])
        (sKeys.map (fun p => (h1 :: p, fs p)) ++
         dKeys.map (fun p => (h2 :: p, fd p)))).lookupPath (h2 :: p) =
      if p ∈ dKeys then some (fd p) else none) ∧
    (∀ a, a ≠ h1 → a ≠ h2 → (unflattenInto (.node [(h1, .node []), (h2, .node [])])
        (sKeys.map (fun p => (h1 :: p, fs p)) ++
         dKeys.map (fun p => (h2 :: p, fd p)))).getChild a = none) := by
  have hpair : (sKeys.map (fun p => (h1 :: p, fs p)) ++
      dKeys.map (fun p => (h2 :: p, fd p))).Pairwise (fun x y => Incomp x.1 y.1) := by
    rw [List.pairwise_append]
    refine ⟨?_, ?_, ?_⟩
    · rw [List.pairwise_map]
      exact hps.imp (fun hxy => Incomp_cons_same h1 _ _ hxy)
    · rw [List.pairwise_map]
      exact hpd.imp (fun hxy => Incomp_cons_same h2 _ _ hxy)
    · intro x hx y hy
      rw [List.mem_map] at hx hy
      obtain ⟨px, _, hpx⟩ := hx
      obtain ⟨py, _, hpy⟩ := hy
      rw [← hpx, ← hpy]
      exact Incomp_cons_ne h1 h2 _ _ hne
  have hg1 : Nested.getChild (.node [(h1, .node []), (h2, .node [])]) h1 =
      some (.node []) := by
    simp [Nested.getChild, Nested.childrenOf, lookupA]
  have hg2 : Nested.getChild (.node [(h1, .node []), (h2, .node [])]) h2 =
      some (.node []) := by
    simp [Nested.getChild, Nested.childrenOf, lookupA, hne]
  have hinit1 : ∀ p, (Nested.node [(h1, .node []), (h2, .node [])]).lookupPath
      (h1 :: p) = none := by
    intro p
    rw [lookupPath_cons, hg1]
    exact lookupPath_node_nil p
  have hinit2 : ∀ p, (Nested.node [(h1, .node []), (h2, .node [])]).lookupPath
      (h2 :: p) = none := by
    intro p
    rw [lookupPath_cons, hg2]
    exact lookupPath_node_nil p
  refine ⟨fun p => ?_, fun p => ?_, fun a ha1 ha2 => ?_⟩
  · by_cases hp : p ∈ sKeys
    · rw [if_pos hp]
      refine lookupPath_unflatten_some _ _ _ _ hpair ?_
      rw [lookupA_append, lookupA_map_consKey, if_pos hp]
    · rw [if_neg hp]
      refine lookupPath_unflatten_none _ _ _ ?_ (hinit1 p)
      rw [lookupA_append, lookupA_map_consKey, if_neg hp]
      exact lookupA_map_consKey_ne dKeys fd h2 h1 hne p
  · by_cases hp : p ∈ dKeys
    · rw [if_pos hp]
      refine lookupPath_unflatten_some _ _ _ _ hpair ?_
      rw [lookupA_append, lookupA_map_consKey_ne sKeys fs h1 h2 (fun hc => hne hc.symm)]
      rw [lookupA_map_consKey, if_pos hp]
    · rw [if_neg hp]
      refine lookupPath_unflatten_none _ _ _ ?_ (hinit2 p)
      rw [lookupA_append, lookupA_map_consKey_ne sKeys fs h1 h2 (fun hc => hne hc.symm)]
      rw [lookupA_map_consKey, if_neg hp]
  · rw [getChild_unflatten_ne]
    · simp only [Nested.getChild, Nested.childrenOf, lookupA]
      rw [if_neg (fun hc => ha1 hc.symm), if_neg (fun hc => ha2 hc.symm)]
    · intro x hx
      rw [List.mem_append] at hx
      rcases hx with hx | hx <;> rw [List.mem_map] at hx
      · obtain ⟨px, _, hpx⟩ := hx
        exact ⟨h1, px, by rw [← hpx], fun hc => ha1 hc.symm⟩
      · obtain ⟨px, _, hpx⟩ := hx
        exact ⟨h2, px, by rw [← hpx], fun hc => ha2 hc.symm⟩

/-- The section-application skeleton shared by the `server` and `dataset`
steps of `update_from_config_file`: a truthy section is applied via
`update_from_config`, anything else is skipped. -/
def sectionApply (b : BaseConfig) (head : String) (mch : Option Nested) :
    Option Err × BaseConfig :=
  match mch with
  | some s => if s.truthy then b.update_from_config s head else (none, b)
  | none => (none, b)

theorem tree_section_update (b : BaseConfig) (sec : Nested) (f : List String → Value)
    (tree : Nested) (head : String)
    (hb : b.attrs = flattenN sec)
    (hwt : wfN tree = true)
    (hF : ∀ p, tree.lookupPath (head :: p) =
        if p ∈ keysOf (flattenN sec) then some (f p) else none)
    (hcons : ∀ p ∈ keysOf (flattenN sec), ∃ a as, p = a :: as) :
    (sectionApply b head (tree.getChild head)).1 = none ∧
    ∀ p ∈ keysOf (flattenN sec),
      lookupA (sectionApply b head (tree.getChild head)).2.attrs p = some (f p) := by
  cases hch : tree.getChild head with
  | none =>
    refine ⟨rfl, fun p hp => ?_⟩
    exfalso
    have h1 := hF p
    rw [if_pos hp, lookupPath_cons, hch] at h1
    simp at h1
  | some s =>
    have hsA : sectionApply b head (some s) =
        if s.truthy then b.update_from_config s head else (none, b) := rfl
    rw [hsA]
    have hws : wfN s = true := wfN_getChild tree head s hwt hch
    have hred : ∀ p, tree.lookupPath (head :: p) = s.lookupPath p := by
      intro p
      rw [lookupPath_cons, hch]
    have hG : ∀ p, s.lookupPath p =
        if p ∈ keysOf (flattenN sec) then some (f p) else none := by
      intro p
      rw [← hred p]
      exact hF p
    have hGf : ∀ p, lookupA (flattenN s) p =
        if p ∈ keysOf (flattenN sec) then some (f p) else none := by
      intro p
      rw [lookupA_flattenN s hws p]
      exact hG p
    cases hkeys : flattenN sec with
    | nil =>
      have hfs : flattenN s = [] := by
        cases hflat : flattenN s with
        | nil => rfl
        | cons x xs =>
          exfalso
          have h1 := hGf x.1
          rw [hflat, hkeys] at h1
          obtain ⟨xp, xv⟩ := x
          simp [lookupA, keysOf] at h1
      have hupd : b.update_from_config s head = (none, b) := by
        rw [BaseConfig.update_from_config, hfs]
        rfl
      cases htr : s.truthy with
      | true =>
        refine ⟨?_, fun p hp => ?_⟩
        · simp [htr, hupd]
        · simp [keysOf] at hp
      | false =>
        refine ⟨?_, fun p hp => ?_⟩
        · simp [htr]
        · simp [keysOf] at hp
    | cons x xs =>
      have hx1 : x.1 ∈ keysOf (flattenN sec) := by
        rw [hkeys]
        exact List.mem_cons_self _ _
      have hsx : s.lookupPath x.1 = some (f x.1) := by
        rw [hG x.1, if_pos hx1]
      obtain ⟨a, as, hx1eq⟩ := hcons x.1 hx1
      have htr : s.truthy = true := by
        refine truthy_of_lookupPath_cons s a as (f x.1) ?_
        rw [← hx1eq]
        exact hsx
      have hnd : (keysOf (flattenN s)).Nodup :=
        nodup_keysOf_of_pairwise _ (pairwise_incomp_flattenN s hws)
      have hin : ∀ k ∈ keysOf (flattenN s), (lookupA b.attrs k).isSome := by
        intro k hk
        have h1 := lookupA_isSome_of_mem (flattenN s) k hk
        rw [hGf k] at h1
        by_cases hks : k ∈ keysOf (flattenN sec)
        · rw [hb]
          exact lookupA_isSome_of_mem (flattenN sec) k hks
        · rw [if_neg hks] at h1
          simp at h1
      obtain ⟨hu1, hu2⟩ := update_spec (flattenN s) b hnd hin
      rw [if_pos htr]
      refine ⟨hu1, fun p hp => ?_⟩
      rw [← hkeys] at hp
      have h2 := hu2 p
      rw [hGf p, if_pos hp] at h2
      exact h2

theorem getChild_def (t : Nested) (a : String) : lookupA t.childrenOf a = t.getChild a := rfl

theorem serverStep_eq (c : AppConfig) (config : List (String × Nested)) :
    serverStep c config =
      ((sectionApply c.server_config "server" (lookupA config "server")).1,
       { c with server_config :=
          (sectionApply c.server_config "server" (lookupA config "server")).2 }) := by
  simp only [serverStep, sectionApply]
  cases hl : lookupA config "server" with
  | none => rfl
  | some s =>
    cases htr : s.truthy with
    | false => simp [htr]
    | true =>
      cases hu : c.server_config.update_from_config s "server" with
      | mk eo s2 => cases eo <;> simp [htr, hu]

theorem datasetStep_eq (c : AppConfig) (config : List (String × Nested)) :
    datasetStep c config =
      ((sectionApply c.default_dataset_config "dataset" (lookupA config "dataset")).1,
       { c with default_dataset_config :=
          (sectionApply c.default_dataset_config "dataset" (lookupA config "dataset")).2 }) := by
  simp only [datasetStep, sectionApply]
  cases hl : lookupA config "dataset" with
  | none => rfl
  | some s =>
    cases htr : s.truthy with
    | false => simp [htr]
    | true =>
      cases hu : c.default_dataset_config.update_from_config s "dataset" with
      | mk eo s2 => cases eo <;> simp [htr, hu]

theorem update_from_config_data_eq (c0 : AppConfig) (config : List (String × Nested))
    (h1 : (serverStep c0 config).1 = none)
    (h2 : (datasetStep (serverStep c0 config).2 config).1 = none)
    (h3 : lookupA config "per_dataset_config" = none) :
    c0.update_from_config_data config =
      (none, { (datasetStep (serverStep c0 config).2 config).2 with
        is_complete := some false }) := by
  cases hs : serverStep c0 config with
  | mk e1 c1 =>
    rw [hs] at h1 h2
    simp only at h1 h2
    subst h1
    cases hd : datasetStep c1 config with
    | mk e2 c2 =>
      rw [hd] at h2
      simp only at h2
      subst h2
      simp only [AppConfig.update_from_config_data, hs, hd, h3, Option.getD_none, pdcLoop]

/-- C5: round trip.  For an AppConfig with no per-dataroot overrides,
writing the configuration out and loading it into a freshly constructed
AppConfig built from the same default configuration succeeds and yields
the same effective attribute values for every key present in the default
schema, for both the server and the dataset scope. -/
theorem write_config_round_trip
    (c : AppConfig) (dc : List (String × Nested)) (sSec dSec : Nested)
    (sOk sCo dOk dCo : Bool)
    (hdcs : lookupA dc "server" = some sSec)
    (hdcd : lookupA dc "dataset" = some dSec)
    (hwfs : wfN sSec = true) (hwfd : wfN dSec = true)
    (hsn : sSec.isNode = true) (hdn : dSec.isNode = true)
    (hcs : c.server_config.default_config = sSec)
    (hcd : c.default_dataset_config.default_config = dSec)
    (hnr : c.dataroot_config = [])
    (has : ∀ p ∈ keysOf (flattenN sSec), (lookupA c.server_config.attrs p).isSome)
    (had : ∀ p ∈ keysOf (flattenN dSec),
      (lookupA c.default_dataset_config.attrs p).isSome) :
    ((mkAppConfig dc sOk sCo dOk dCo).update_from_config_data
        c.write_config_model).1 = none ∧
    (∀ p ∈ keysOf (flattenN sSec),
      lookupA ((mkAppConfig dc sOk sCo dOk dCo).update_from_config_data
          c.write_config_model).2.server_config.attrs p =
        lookupA c.server_config.attrs p) ∧
    (∀ p ∈ keysOf (flattenN dSec),
      lookupA ((mkAppConfig dc sOk sCo dOk dCo).update_from_config_data
          c.write_config_model).2.default_dataset_config.attrs p =
        lookupA c.default_dataset_config.attrs p) := by
  have hwrite : c.write_config_model =
      (unflattenInto (.node [("server", .node []), ("dataset", .node [])])
        ((keysOf (flattenN sSec)).map
          (fun p => ("server" :: p, c.server_config.getAttrD p)) ++
         (keysOf (flattenN dSec)).map
          (fun p => ("dataset" :: p, c.default_dataset_config.getAttrD p)))).childrenOf := by
    simp only [AppConfig.write_config_model, hnr, hcs, hcd, keysOf_create_mapping,
      List.isEmpty_nil, if_true, List.flatMap_nil, List.append_nil]
  obtain ⟨hF1, hF2, hF3⟩ := lookupPath_unflatten_blocks "server" "dataset" (by decide)
    (keysOf (flattenN sSec)) (keysOf (flattenN dSec))
    (fun p => c.server_config.getAttrD p) (fun p => c.default_dataset_config.getAttrD p)
    (pairwise_incomp_keysOf sSec hwfs) (pairwise_incomp_keysOf dSec hwfd)
  have hwt : wfN (unflattenInto (.node [("server", .node []), ("dataset", .node [])])
      ((keysOf (flattenN sSec)).map
        (fun p => ("server" :: p, c.server_config.getAttrD p)) ++
       (keysOf (flattenN dSec)).map
        (fun p => ("dataset" :: p, c.default_dataset_config.getAttrD p)))) = true :=
    wf_unflatten _ _ (by decide)
  have hbs : (mkAppConfig dc sOk sCo dOk dCo).server_config.attrs = flattenN sSec := by
    simp [mkAppConfig, ServerConfig.init, hdcs]
  have hbd : (mkAppConfig dc sOk sCo dOk dCo).default_dataset_config.attrs =
      flattenN dSec := by
    simp [mkAppConfig, DatasetConfig.init, hdcd]
  obtain ⟨hs1, hs2⟩ := tree_section_update (mkAppConfig dc sOk sCo dOk dCo).server_config
    sSec (fun p => c.server_config.getAttrD p) _ "server" hbs hwt hF1
    (keys_flattenN_cons sSec hsn)
  obtain ⟨hd1, hd2⟩ := tree_section_update
    (mkAppConfig dc sOk sCo dOk dCo).default_dataset_config
    dSec (fun p => c.default_dataset_config.getAttrD p) _ "dataset" hbd hwt hF2
    (keys_flattenN_cons dSec hdn)
  have hserver : serverStep (mkAppConfig dc sOk sCo dOk dCo) c.write_config_model =
      (none, { mkAppConfig dc sOk sCo dOk dCo with server_config :=
        (sectionApply (mkAppConfig dc sOk sCo dOk dCo).server_config "server"
          ((unflattenInto (.node [("server", .node []), ("dataset", .node [])])
            ((keysOf (flattenN sSec)).map
              (fun p => ("server" :: p, c.server_config.getAttrD p)) ++
             (keysOf (flattenN dSec)).map
              (fun p => ("dataset" :: p,
                c.default_dataset_config.getAttrD p)))).getChild "server")).2 }) := by
    rw [serverStep_eq, hwrite, getChild_def, hs1]
  have hdds : (serverStep (mkAppConfig dc sOk sCo dOk dCo)
      c.write_config_model).2.default_dataset_config =
      (mkAppConfig dc sOk sCo dOk dCo).default_dataset_config := by
    rw [hserver]
  have hdataset : datasetStep (serverStep (mkAppConfig dc sOk sCo dOk dCo)
        c.write_config_model).2 c.write_config_model =
      (none, { (serverStep (mkAppConfig dc sOk sCo dOk dCo)
          c.write_config_model).2 with default_dataset_config :=
        (sectionApply (mkAppConfig dc sOk sCo dOk dCo).default_dataset_config "dataset"
          ((unflattenInto (.node [("server", .node []), ("dataset", .node [])])
            ((keysOf (flattenN sSec)).map
              (fun p => ("server" :: p, c.server_config.getAttrD p)) ++
             (keysOf (flattenN dSec)).map
              (fun p => ("dataset" :: p,
                c.default_dataset_config.getAttrD p)))).getChild "dataset")).2 }) := by
    rw [datasetStep_eq, hdds, hwrite, getChild_def, hd1]
  have hpdc : lookupA c.write_config_model "per_dataset_config" =
      (none : Option Nested) := by
    rw [hwrite, getChild_def]
    exact hF3 "per_dataset_config" (by decide) (by decide)
  have hcomp := update_from_config_data_eq (mkAppConfig dc sOk sCo dOk dCo)
    c.write_config_model (by rw [hserver]) (by rw [hdataset]) hpdc
  rw [hcomp, hdataset]
  refine ⟨rfl, fun p hp => ?_, fun p hp => ?_⟩
  · have h2 := hs2 p hp
    show lookupA ({ (serverStep (mkAppConfig dc sOk sCo dOk dCo)
        c.write_config_model).2 with default_dataset_config :=
          (sectionApply (mkAppConfig dc sOk sCo dOk dCo).default_dataset_config "dataset"
            ((unflattenInto (.node [("server", .node []), ("dataset", .node [])])
              ((keysOf (flattenN sSec)).map
                (fun p => ("server" :: p, c.server_config.getAttrD p)) ++
               (keysOf (flattenN dSec)).map
                (fun p => ("dataset" :: p,
                  c.default_dataset_config.getAttrD p)))).getChild "dataset")).2
      }).server_config.attrs p = lookupA c.server_config.attrs p
    have hsc : ({ (serverStep (mkAppConfig dc sOk sCo dOk dCo)
        c.write_config_model).2 with default_dataset_config :=
          (sectionApply (mkAppConfig dc sOk sCo dOk dCo).default_dataset_config "dataset"
            ((unflattenInto (.node [("server", .node []), ("dataset", .node [])])
              ((keysOf (flattenN sSec)).map
                (fun p => ("server" :: p, c.server_config.getAttrD p)) ++
               (keysOf (flattenN dSec)).map
                (fun p => ("dataset" :: p,
                  c.default_dataset_config.getAttrD p)))).getChild "dataset")).2
      }).server_config = (serverStep (mkAppConfig dc sOk sCo dOk dCo)
        c.write_config_model).2.server_config := rfl
    rw [hsc, hserver]
    show lookupA (sectionApply (mkAppConfig dc sOk sCo dOk dCo).server_config "server"
        ((unflattenInto (.node [("server", .node []), ("dataset", .node [])])
          ((keysOf (flattenN sSec)).map
            (fun p => ("server" :: p, c.server_config.getAttrD p)) ++
           (keysOf (flattenN dSec)).map
            (fun p => ("dataset" :: p,
              c.default_dataset_config.getAttrD p)))).getChild "server")).2.attrs p =
      lookupA c.server_config.attrs p
    rw [h2]
    exact getAttrD_eq c.server_config p (has p hp)
  · have h2 := hd2 p hp
    show lookupA (sectionApply (mkAppConfig dc sOk sCo dOk dCo).default_dataset_config
        "dataset" ((unflattenInto (.node [("server", .node []), ("dataset", .node [])])
          ((keysOf (flattenN sSec)).map
            (fun p => ("server" :: p, c.server_config.getAttrD p)) ++
           (keysOf (flattenN dSec)).map
            (fun p => ("dataset" :: p,
              c.default_dataset_config.getAttrD p)))).getChild "dataset")).2.attrs p =
      lookupA c.default_dataset_config.attrs p
    rw [h2]
    exact getAttrD_eq c.default_dataset_config p (had p hp)

theorem write_config_round_trip_witness :
    (((mkAppConfig sampleDC true true true true).update_from_config_data
        (cfgA.update_server_config
          [(["single_dataset", "title"], .vstr "hello")]).2.write_config_model).1 =
      none) ∧
    (∀ p ∈ keysOf (flattenN (.node
        [("single_dataset", .node [("datapath", .leaf (.vstr "")),
          ("title", .leaf .vnone)]),
         ("multi_dataset", .node
          [("dataroot", .leaf (.vdict [("d1", "/data/d1"), ("d2", "/data/d2")]))])])),
      lookupA ((mkAppConfig sampleDC true true true true).update_from_config_data
          (cfgA.update_server_config
            [(["single_dataset", "title"], .vstr "hello")]).2.write_config_model).2.server_config.attrs
          p =
        lookupA (cfgA.update_server_config
          [(["single_dataset", "title"], .vstr "hello")]).2.server_config.attrs p) ∧
    (∀ p ∈ keysOf (flattenN (.node
        [("app", .node [("scripts", .leaf (.vbool false))]),
         ("user_annotations", .node [("enable", .leaf (.vbool true))])])),
      lookupA ((mkAppConfig sampleDC true true true true).update_from_config_data
          (cfgA.update_server_config
            [(["single_dataset", "title"], .vstr "hello")]).2.write_config_model).2.default_dataset_config.attrs
          p =
        lookupA (cfgA.update_server_config
          [(["single_dataset", "title"],
            .vstr "hello")]).2.default_dataset_config.attrs p) :=
  write_config_round_trip
    (cfgA.update_server_config [(["single_dataset", "title"], .vstr "hello")]).2
    sampleDC
    (.node [("single_dataset", .node [("datapath", .leaf (.vstr "")),
        ("title", .leaf .vnone)]),
      ("multi_dataset", .node
        [("dataroot", .leaf (.vdict [("d1", "/data/d1"), ("d2", "/data/d2")]))])])
    (.node [("app", .node [("scripts", .leaf (.vbool false))]),
      ("user_annotations", .node [("enable", .leaf (.vbool true))])])
    true true true true
    rfl rfl rfl rfl rfl rfl rfl rfl rfl (by decide) (by decide)
